import Mathlib

set_option maxHeartbeats 1000000

/-!
Verification development for the schema-migration engine
(`MigrationGenerator.ts`: `MigrationGenerator` and `MigrationRunner`).

Strings of the TypeScript source are modelled as lists of characters
(`String.data` style); the database tracking table `schema_migrations` is
modelled as a list of `MigrationRecord` in insertion order together with a
table-existence flag; the per-migration `up`/`down` bodies are opaque and
modelled by an oracle saying, per migration id, whether the body runs to
completion or throws.
-/

namespace Migrations

/-- Strings are modelled as lists of characters. -/
abbrev Str := List Char

/-- Code points of a string literal. -/
def lit (s : String) : Str := s.data

/-- Digit test of the filename regex class `\d`, i.e. an ASCII digit 0-9. -/
def isDigitChar (c : Char) : Bool := 48 ≤ c.toNat && c.toNat ≤ 57

/-- Newline code point; the regex `.` matches every character except this one. -/
def newlineChar : Char := Char.ofNat 10

/-- Value of a decimal digit string, as `parseInt` computes it. -/
def digitsToNat (l : Str) : Nat := l.foldl (fun a c => a * 10 + (c.toNat - 48)) 0

/-- A parsed catalog entry, as built by `MigrationRunner.getMigrationFiles`:
`id` is the 14-digit prefix, `name` the slug, `timestamp = parseInt(id)`. -/
structure MigrationFile where
  id : Str
  name : Str
  timestamp : Nat
  filename : Str
deriving DecidableEq, Repr

/-- Filename match of `getMigrationFiles`: the regex
`^(\d{14})_(.+)\.(ts|js)$` (the prior `endsWith('.ts')||endsWith('.js')`
filter is subsumed by the regex).  Since the extension alternative is
anchored at the end, a filename matches exactly when it is
14 digits, `_`, a non-empty name free of newlines, and `.ts` or `.js`.
Returns the captured `(timestamp-string, name)`. -/
def parseFilename (cs : Str) : Option (Str × Str) :=
  let ts := cs.take 14
  match cs.drop 14 with
  | [] => none
  | u :: r =>
    if ts.length = 14 && ts.all isDigitChar && (u = '_') && decide (4 ≤ r.length)
        && (r.drop (r.length - 3) = lit ".ts" || r.drop (r.length - 3) = lit ".js")
        && (r.take (r.length - 3)).all (fun c => !(c = newlineChar)) then
      some (ts, r.take (r.length - 3))
    else none

/-- One loop iteration of `getMigrationFiles`: a matching filename becomes a
`MigrationFile` with `timestamp = parseInt(timestampStr)` and `id = timestampStr`;
a non-matching one is skipped (with a warning). -/
def parseToFile (filename : Str) : Option MigrationFile :=
  (parseFilename filename).map fun p => ⟨p.1, p.2, digitsToNat p.1, filename⟩

/-- Sort order used by `getMigrationFiles`: the comparator
`(a, b) => a.timestamp - b.timestamp`, ascending by timestamp. -/
def fileLe (a b : MigrationFile) : Prop := a.timestamp ≤ b.timestamp

instance : DecidableRel fileLe := fun a b => inferInstanceAs (Decidable (_ ≤ _))

instance : IsTotal MigrationFile fileLe := ⟨fun a b => Nat.le_total a.timestamp b.timestamp⟩

instance : IsTrans MigrationFile fileLe := ⟨fun _ _ _ => Nat.le_trans⟩

/-- The catalog listing `getMigrationFiles`: parse each directory entry,
skipping non-matching names, then sort ascending by timestamp.  The
directory listing `files` is an explicit argument: the runner object holds
no cache (its only fields are the readonly `migrationsPath` and `tableName`),
so every call recomputes the result from the current listing. -/
def getMigrationFiles (files : List Str) : List MigrationFile :=
  List.insertionSort fileLe (files.filterMap parseToFile)

/-- Lexicographic order on strings by code point, the sort-key order on the
fixed-width `id` strings. -/
def lexLeB : Str → Str → Bool
  | [], _ => true
  | _ :: _, [] => false
  | a :: as, b :: bs =>
    if a.toNat < b.toNat then true
    else if a.toNat = b.toNat then lexLeB as bs
    else false

/-- A row of the `schema_migrations` tracking table. -/
structure MigrationRecord where
  id : Str
  name : Str
  batch : Nat
  executedAt : Nat
deriving DecidableEq, Repr

/-- Persisted database state: whether the tracking table exists, its rows in
insertion order, and a logical clock supplying `new Date()` values. -/
structure Db where
  tableExists : Bool
  records : List MigrationRecord
  clock : Nat
deriving DecidableEq, Repr

/-- The query order of `getExecutedMigrations`:
`ORDER BY batch ASC, executed_at ASC`. -/
def recLe (a b : MigrationRecord) : Prop :=
  a.batch < b.batch ∨ (a.batch = b.batch ∧ a.executedAt ≤ b.executedAt)

instance : DecidableRel recLe := fun a b =>
  inferInstanceAs (Decidable (_ ∨ _))

instance : IsTotal MigrationRecord recLe := by
  constructor
  intro a b
  rcases Nat.lt_trichotomy a.batch b.batch with h | h | h
  · exact Or.inl (Or.inl h)
  · rcases Nat.le_total a.executedAt b.executedAt with h2 | h2
    · exact Or.inl (Or.inr ⟨h, h2⟩)
    · exact Or.inr (Or.inr ⟨h.symm, h2⟩)
  · exact Or.inr (Or.inl h)

instance : IsTrans MigrationRecord recLe := by
  constructor
  intro a b c hab hbc
  rcases hab with h1 | ⟨h1, h1'⟩ <;> rcases hbc with h2 | ⟨h2, h2'⟩
  · exact Or.inl (Nat.lt_trans h1 h2)
  · exact Or.inl (h2 ▸ h1)
  · exact Or.inl (h1 ▸ h2)
  · exact Or.inr ⟨h1.trans h2, h1'.trans h2'⟩

/-- Reading the tracking table: `SELECT ... ORDER BY batch ASC, executed_at ASC`. -/
def getExecutedMigrations (db : Db) : List MigrationRecord :=
  List.insertionSort recLe db.records

/-- Maximum batch among a list of records (`MAX(batch)`, `Math.max(...)`),
with 0 standing for the SQL `NULL` of an empty table. -/
def maxBatchList (l : List MigrationRecord) : Nat :=
  l.foldl (fun a r => max a r.batch) 0

/-- Batch reservation `getNextBatch`: `(MAX(batch) || 0) + 1` over the
current rows. -/
def nextBatch (records : List MigrationRecord) : Nat := maxBatchList records + 1

/-- Pending computation `getPendingMigrations`: catalog entries whose id is
not among the executed record ids, in catalog order. -/
def getPendingMigrations (fs : List Str) (db : Db) : List MigrationFile :=
  (getMigrationFiles fs).filter fun f =>
    !((getExecutedMigrations db).any fun r => decide (r.id = f.id))

/-- The record deletion of `runMigration`'s down branch:
`DELETE FROM schema_migrations WHERE id = migrationFile.id`.  A where-clause
delete removes every matching row and reports no error when none match. -/
def removeRecord (records : List MigrationRecord) (id : Str) : List MigrationRecord :=
  records.filter fun r => decide (r.id ≠ id)

/-- Modelled from the spec (State Store contract, for comparison with
`removeRecord` above): "removeRecord(id): deletes the record for `id`;
fails if absent", failure being `none`. -/
def removeRecordSpec (records : List MigrationRecord) (id : Str) :
    Option (List MigrationRecord) :=
  if records.any fun r => decide (r.id = id) then
    some (records.filter fun r => decide (r.id ≠ id))
  else none

/-- Outcome of a `migrate()` call: final database state, the batch number
reserved for the run (when the pending set was non-empty), the ids whose
`up` was invoked in order, and the id whose `up` threw, if any. -/
structure MigrateOutcome where
  db : Db
  batchUsed : Option Nat
  upsRun : List Str
  failed : Option Str
deriving DecidableEq, Repr

/-- One `runMigration(file, 'up', batch)` call: when the `up` body succeeds the
`MigrationRecord` insert commits with it; when it throws, the transaction is
rolled back, so no record appears. -/
def applyUp (upOk : Str → Bool) (b : Nat) (f : MigrationFile) (db : Db) : Db × Bool :=
  if upOk f.id then
    ({ db with
        records := db.records ++ [⟨f.id, f.name, b, db.clock⟩],
        clock := db.clock + 1 }, true)
  else (db, false)

/-- The `for`-loop of `migrate()`: apply each pending migration oldest first;
the first failure aborts the run immediately (the thrown error propagates out
of the loop). -/
def migrateLoop (upOk : Str → Bool) (b : Nat) :
    List MigrationFile → Db → Db × List Str × Option Str
  | [], db => (db, [], none)
  | f :: rest, db =>
    match applyUp upOk b f db with
    | (db1, true) =>
      let out := migrateLoop upOk b rest db1
      (out.1, f.id :: out.2.1, out.2.2)
    | (db1, false) => (db1, [f.id], some f.id)

/-- The `migrate()` entry point: ensure the tracking table, compute the
pending set, stop if it is empty, otherwise reserve one batch number for the
whole run and execute the loop. -/
def migrate (upOk : Str → Bool) (fs : List Str) (db : Db) : MigrateOutcome :=
  let db1 := { db with tableExists := true }
  let pending := getPendingMigrations fs db1
  if pending.isEmpty then ⟨db1, none, [], none⟩
  else
    let b := nextBatch db1.records
    let out := migrateLoop upOk b pending db1
    ⟨out.1, some b, out.2.1, out.2.2⟩

/-- Outcome of a `rollback()` call: final state, ids reversed (down ran and
record removed) in processing order, names warned about because no catalog
file matched, and the id whose `down` threw, if any. -/
structure RollbackOutcome where
  db : Db
  reversed : List Str
  warnings : List Str
  failed : Option Str
deriving DecidableEq, Repr

/-- The `for`-loop of `rollback()`: for each record of the target batch, look
its descriptor up in the catalog; when absent, warn and continue; when
present, run `down` and delete the record, a failure aborting the rest. -/
def rollbackLoop (downOk : Str → Bool) (files : List MigrationFile) :
    List MigrationRecord → Db → RollbackOutcome
  | [], db => ⟨db, [], [], none⟩
  | r :: rest, db =>
    match files.find? (fun f => decide (f.id = r.id)) with
    | some f =>
      if downOk f.id then
        let db1 := { db with records := removeRecord db.records f.id }
        let out := rollbackLoop downOk files rest db1
        ⟨out.db, r.id :: out.reversed, out.warnings, out.failed⟩
      else ⟨db, [], [], some r.id⟩
    | none =>
      let out := rollbackLoop downOk files rest db
      ⟨out.db, out.reversed, r.name :: out.warnings, out.failed⟩

/-- The `rollback()` entry point: ensure the tracking table, read the applied
records, stop when none, otherwise reverse the records whose batch is the
maximum batch, newest first. -/
def rollback (downOk : Str → Bool) (fs : List Str) (db : Db) : RollbackOutcome :=
  let db1 := { db with tableExists := true }
  let ex := getExecutedMigrations db1
  if ex.isEmpty then ⟨db1, [], [], none⟩
  else
    let lastBatch := maxBatchList ex
    let targets := (ex.filter fun r => decide (r.batch = lastBatch)).reverse
    let allFiles := getMigrationFiles fs
    rollbackLoop downOk allFiles targets db1

/-- The `status()` entry point: ensure the tracking table, then return the
pair of executed records and pending files derived from the resulting state. -/
def status (fs : List Str) (db : Db) : Db × List MigrationRecord × List MigrationFile :=
  let db1 := { db with tableExists := true }
  (db1, getExecutedMigrations db1, getPendingMigrations fs db1)

/-- Operator sessions: successive `migrate()` / `rollback()` invocations
against a fixed migrations directory. -/
inductive DriverOp where
  | mig : DriverOp
  | roll : DriverOp
deriving DecidableEq, Repr

/-- Run a session with every `up` and `down` body succeeding, collecting the
batch number of each `migrate()` run that applied at least one migration. -/
def runOps (fs : List Str) : List DriverOp → Db → Db × List Nat
  | [], db => (db, [])
  | DriverOp.mig :: rest, db =>
    let out := migrate (fun _ => true) fs db
    let tail := runOps fs rest out.db
    (tail.1,
      (match out.batchUsed with
       | some b => if db.records.length < out.db.records.length then [b] else []
       | none => []) ++ tail.2)
  | DriverOp.roll :: rest, db =>
    runOps fs rest (rollback (fun _ => true) fs db).db

/-! ### Helper lemmas about batches and the pending computation -/

theorem le_foldl_max (l : List MigrationRecord) (a : Nat) :
    a ≤ l.foldl (fun x r => max x r.batch) a := by
  induction l generalizing a with
  | nil => exact Nat.le_refl a
  | cons r t ih =>
    simp only [List.foldl_cons]
    exact Nat.le_trans (Nat.le_max_left a r.batch) (ih (max a r.batch))

theorem batch_le_foldl_max (l : List MigrationRecord) :
    ∀ (a : Nat) (r : MigrationRecord), r ∈ l →
      r.batch ≤ l.foldl (fun x s => max x s.batch) a := by
  induction l with
  | nil => intro a r hr; cases hr
  | cons s t ih =>
    intro a r hr
    simp only [List.foldl_cons]
    rcases List.mem_cons.mp hr with h | h
    · subst h
      exact Nat.le_trans (Nat.le_max_right a r.batch) (le_foldl_max t (max a r.batch))
    · exact ih (max a s.batch) r h

theorem batch_lt_nextBatch (l : List MigrationRecord) (r : MigrationRecord) (hr : r ∈ l) :
    r.batch < nextBatch l :=
  Nat.lt_succ_of_le (batch_le_foldl_max l 0 r hr)

theorem any_id_eq (l : List MigrationRecord) (x : Str) :
    (l.any fun r => decide (r.id = x)) = decide (x ∈ l.map MigrationRecord.id) := by
  rw [List.any_eq]
  apply decide_eq_decide.mpr
  simp [List.mem_map, eq_comm]

theorem getPendingMigrations_eq (fs : List Str) (db : Db) :
    getPendingMigrations fs db
      = (getMigrationFiles fs).filter fun f =>
          !decide (f.id ∈ db.records.map MigrationRecord.id) := by
  unfold getPendingMigrations
  apply List.filter_congr
  intro f _
  rw [any_id_eq]
  congr 1
  apply decide_eq_decide.mpr
  simp [getExecutedMigrations, List.mem_map, List.mem_insertionSort]

/-! ### Claim C1: batch numbers across migrate/rollback sessions -/

/-- Claim C1 fails on the code: with one catalog file, the session
`migrate(); rollback(); migrate()` from an empty store assigns batch 1 to
both `migrate` runs.  `getNextBatch` is `max(batch of current rows) + 1`, so
once `rollback` has emptied the highest batch, that batch number is reused
and the assigned numbers are not strictly increasing. -/
theorem batch_number_reused_counterexample :
    (runOps [lit "20250101000001_a.ts"] [DriverOp.mig, DriverOp.roll, DriverOp.mig]
        ⟨false, [], 0⟩).2 = [1, 1] ∧
    ¬ List.Pairwise (fun a b : Nat => a < b)
        (runOps [lit "20250101000001_a.ts"] [DriverOp.mig, DriverOp.roll, DriverOp.mig]
            ⟨false, [], 0⟩).2 := by
  decide

/-- Claim C1 (amended): the batch number reserved by a `migrate()` run that
finds a non-empty pending set is `max(batch of current rows) + 1`, hence
strictly greater than the batch of every record present when the run starts;
batch numbers whose rows a rollback already deleted can however be reused. -/
theorem migrate_batch_gt_recorded (upOk : Str → Bool) (fs : List Str) (db : Db)
    (b : Nat) (hb : (migrate upOk fs db).batchUsed = some b) :
    ∀ r ∈ db.records, r.batch < b := by
  intro r hr
  unfold migrate at hb
  by_cases hp : (getPendingMigrations fs { db with tableExists := true }).isEmpty
  · simp [hp] at hb
  · simp only [hp, Bool.false_eq_true, if_false, Option.some.injEq] at hb
    exact hb ▸ batch_lt_nextBatch db.records r hr

theorem migrate_batch_gt_recorded_witness :
    (⟨lit "20250101000001", lit "a", 1, 0⟩ : MigrationRecord).batch < 2 := by
  have h := migrate_batch_gt_recorded (fun _ => true)
      [lit "20250101000001_a.ts", lit "20250101000002_b.ts"]
      ⟨true, [⟨lit "20250101000001", lit "a", 1, 0⟩], 1⟩ 2 (by decide)
  exact h ⟨lit "20250101000001", lit "a", 1, 0⟩ (by decide)

/-! ### Claim C3: the partition law of status() -/

/-- Claim C3 fails on the code: `status().executed` is the full record table,
which can contain an orphaned record whose migration file was deleted.  With
one applied record and an empty migrations directory, the orphan's id is in
the executed/pending union but not in `catalog.list()`. -/
theorem status_partition_counterexample :
    ¬ (∀ id : Str,
        (id ∈ (status [] ⟨true, [⟨lit "20250101000001", lit "a", 1, 0⟩], 1⟩).2.1.map
            MigrationRecord.id ∨
         id ∈ (status [] ⟨true, [⟨lit "20250101000001", lit "a", 1, 0⟩], 1⟩).2.2.map
            MigrationFile.id) ↔
        id ∈ (getMigrationFiles []).map MigrationFile.id) := by
  intro h
  have h1 := (h (lit "20250101000001")).mp (Or.inl (by decide))
  exact absurd h1 (by decide)

/-- Claim C3 (amended): executed and pending ids are disjoint, the catalog
ids are covered by their union, pending ids lie in the catalog, and the union
equals the catalog exactly on states with no orphaned records (every record
id having a catalog file). -/
theorem status_partition_law (fs : List Str) (db : Db) :
    (∀ id : Str, id ∈ (status fs db).2.2.map MigrationFile.id →
        id ∉ (status fs db).2.1.map MigrationRecord.id) ∧
    (∀ id : Str, id ∈ (getMigrationFiles fs).map MigrationFile.id →
        (id ∈ (status fs db).2.1.map MigrationRecord.id ∨
         id ∈ (status fs db).2.2.map MigrationFile.id)) ∧
    (∀ id : Str, id ∈ (status fs db).2.2.map MigrationFile.id →
        id ∈ (getMigrationFiles fs).map MigrationFile.id) ∧
    ((∀ r ∈ db.records, r.id ∈ (getMigrationFiles fs).map MigrationFile.id) →
      ∀ id : Str,
        ((id ∈ (status fs db).2.1.map MigrationRecord.id ∨
          id ∈ (status fs db).2.2.map MigrationFile.id) ↔
         id ∈ (getMigrationFiles fs).map MigrationFile.id)) := by
  have hex : ∀ id : Str,
      id ∈ (status fs db).2.1.map MigrationRecord.id ↔
        id ∈ db.records.map MigrationRecord.id := by
    intro id
    simp [status, getExecutedMigrations, List.mem_map, List.mem_insertionSort]
  have hpend : (status fs db).2.2
      = (getMigrationFiles fs).filter fun f =>
          !decide (f.id ∈ db.records.map MigrationRecord.id) := by
    show getPendingMigrations fs { db with tableExists := true } = _
    rw [getPendingMigrations_eq]
  have hdisj : ∀ id : Str, id ∈ (status fs db).2.2.map MigrationFile.id →
      id ∉ (status fs db).2.1.map MigrationRecord.id := by
    intro id hid
    rw [hpend] at hid
    rcases List.mem_map.mp hid with ⟨f, hf, rfl⟩
    have h2 := List.of_mem_filter hf
    rw [hex]
    intro hmem
    rw [Bool.not_eq_eq_eq_not, Bool.not_true, decide_eq_false_iff_not] at h2
    exact h2 hmem
  have hcov : ∀ id : Str, id ∈ (getMigrationFiles fs).map MigrationFile.id →
      (id ∈ (status fs db).2.1.map MigrationRecord.id ∨
       id ∈ (status fs db).2.2.map MigrationFile.id) := by
    intro id hid
    rcases List.mem_map.mp hid with ⟨f, hf, rfl⟩
    by_cases hm : f.id ∈ db.records.map MigrationRecord.id
    · exact Or.inl ((hex f.id).mpr hm)
    · refine Or.inr ?_
      rw [hpend]
      exact List.mem_map.mpr
        ⟨f, List.mem_filter.mpr ⟨hf, by simp [hm]⟩, rfl⟩
  have hsub : ∀ id : Str, id ∈ (status fs db).2.2.map MigrationFile.id →
      id ∈ (getMigrationFiles fs).map MigrationFile.id := by
    intro id hid
    rw [hpend] at hid
    rcases List.mem_map.mp hid with ⟨f, hf, rfl⟩
    exact List.mem_map.mpr ⟨f, (List.mem_filter.mp hf).1, rfl⟩
  refine ⟨hdisj, hcov, hsub, ?_⟩
  intro horph id
  constructor
  · intro h
    rcases h with h | h
    · rcases List.mem_map.mp ((hex id).mp h) with ⟨r, hr, rfl⟩
      exact horph r hr
    · exact hsub id h
  · exact hcov id

theorem status_partition_law_witness :
    ((lit "20250101000001"
        ∈ (status [lit "20250101000001_a.ts"]
            ⟨true, [⟨lit "20250101000001", lit "a", 1, 0⟩], 1⟩).2.1.map MigrationRecord.id ∨
      lit "20250101000001"
        ∈ (status [lit "20250101000001_a.ts"]
            ⟨true, [⟨lit "20250101000001", lit "a", 1, 0⟩], 1⟩).2.2.map MigrationFile.id) ↔
     lit "20250101000001"
        ∈ (getMigrationFiles [lit "20250101000001_a.ts"]).map MigrationFile.id) :=
  (status_partition_law [lit "20250101000001_a.ts"]
      ⟨true, [⟨lit "20250101000001", lit "a", 1, 0⟩], 1⟩).2.2.2
    (by decide) (lit "20250101000001")

/-! ### Claim C4: status() and side effects -/

/-- Claim C4 fails on the code: `status()` first runs `initialize()`, which
creates the tracking table when it is absent, so on a state without the
tracking table `status()` does change persisted state. -/
theorem status_not_side_effect_free_counterexample :
    (status [] ⟨false, [], 0⟩).1 ≠ (⟨false, [], 0⟩ : Db) := by decide

/-- Claim C4 (amended): `status()` only returns the derived partition and
never touches the migration records or the clock; its only effect is the
idempotent `initialize()`, so whenever the tracking table already exists the
persisted state is fully unchanged. -/
theorem status_effect_only_initialization (fs : List Str) (db : Db) :
    (status fs db).1.records = db.records ∧
    (status fs db).1.clock = db.clock ∧
    (db.tableExists = true → (status fs db).1 = db) := by
  refine ⟨rfl, rfl, fun h => ?_⟩
  cases db with
  | mk te rs ck =>
    cases h
    rfl

theorem status_effect_only_initialization_witness :
    (status [] ⟨true, [], 0⟩).1 = (⟨true, [], 0⟩ : Db) :=
  (status_effect_only_initialization [] ⟨true, [], 0⟩).2.2 rfl

/-! ### Claim C7: deleting a migration record -/

/-- Claim C7 fails on the code: the delete issued while rolling back a
migration is a plain where-clause delete; when no record with the id exists
it removes nothing and reports success, whereas the claimed State Store
contract (`removeRecordSpec`) fails.  On the empty store, deleting any id
succeeds as a no-op. -/
theorem removeRecord_absent_no_error_counterexample :
    removeRecord [] (lit "20250101000001") = [] ∧
    removeRecordSpec [] (lit "20250101000001") = none := by decide

/-- Claim C7 (amended): `removeRecord` never raises: it deletes exactly the
records carrying the id, keeps every other record, and is a no-op when the id
is absent. -/
theorem removeRecord_deletes_matching (records : List MigrationRecord) (id : Str) :
    (∀ r ∈ removeRecord records id, r.id ≠ id) ∧
    (∀ r ∈ records, r.id ≠ id → r ∈ removeRecord records id) ∧
    ((∀ r ∈ records, r.id ≠ id) → removeRecord records id = records) := by
  unfold removeRecord
  refine ⟨?_, ?_, ?_⟩
  · intro r hr
    exact of_decide_eq_true (List.mem_filter.mp hr).2
  · intro r hr h
    exact List.mem_filter.mpr ⟨hr, decide_eq_true h⟩
  · intro h
    exact List.filter_eq_self.mpr fun r hr => decide_eq_true (h r hr)

theorem removeRecord_deletes_matching_witness :
    removeRecord [⟨lit "20250101000001", lit "a", 1, 0⟩] (lit "20250101000002")
      = [⟨lit "20250101000001", lit "a", 1, 0⟩] :=
  (removeRecord_deletes_matching
      [⟨lit "20250101000001", lit "a", 1, 0⟩] (lit "20250101000002")).2.2 (by decide)

/-! ### Claim C2: a failing up aborts the run, keeping earlier commits -/

theorem migrateLoop_fail_spec (upOk : Str → Bool) (b : Nat) (f : MigrationFile)
    (post : List MigrationFile) :
    ∀ (pre : List MigrationFile) (db : Db),
      (∀ g ∈ pre, upOk g.id = true) → upOk f.id = false →
      (migrateLoop upOk b (pre ++ f :: post) db).1.records.map MigrationRecord.id
          = db.records.map MigrationRecord.id ++ pre.map MigrationFile.id ∧
      (migrateLoop upOk b (pre ++ f :: post) db).2.1
          = pre.map MigrationFile.id ++ [f.id] ∧
      (migrateLoop upOk b (pre ++ f :: post) db).2.2 = some f.id := by
  intro pre
  induction pre with
  | nil =>
    intro db hpre hf
    simp [migrateLoop, applyUp, hf]
  | cons g t ih =>
    intro db hpre hf
    have hg : upOk g.id = true := hpre g (List.mem_cons_self g t)
    have hrest := ih
      { db with
          records := db.records ++ [⟨g.id, g.name, b, db.clock⟩],
          clock := db.clock + 1 }
      (fun x hx => hpre x (List.mem_cons_of_mem g hx)) hf
    rcases hrest with ⟨h1, h2, h3⟩
    simp only [List.cons_append, migrateLoop, applyUp, hg, if_true, List.append_eq]
    refine ⟨?_, ?_, ?_⟩
    · rw [h1]
      simp
    · rw [h2]
      simp
    · exact h3

theorem migrate_failure_aborts (upOk : Str → Bool) (fs : List Str) (db : Db)
    (pre post : List MigrationFile) (f : MigrationFile)
    (hsplit : getPendingMigrations fs { db with tableExists := true } = pre ++ f :: post)
    (hpre : ∀ g ∈ pre, upOk g.id = true)
    (hf : upOk f.id = false)
    (hnodup : ((pre ++ f :: post).map MigrationFile.id).Nodup) :
    (migrate upOk fs db).failed = some f.id ∧
    (migrate upOk fs db).upsRun = pre.map MigrationFile.id ++ [f.id] ∧
    (migrate upOk fs db).db.records.map MigrationRecord.id
        = db.records.map MigrationRecord.id ++ pre.map MigrationFile.id ∧
    f.id ∉ (migrate upOk fs db).db.records.map MigrationRecord.id ∧
    getPendingMigrations fs (migrate upOk fs db).db = f :: post := by
  have hnil : pre ++ f :: post ≠ [] := by
    cases pre <;> simp
  have hisem : (pre ++ f :: post).isEmpty = false :=
    List.isEmpty_eq_false.mpr hnil
  have hloop := migrateLoop_fail_spec upOk (nextBatch db.records) f post pre
      { db with tableExists := true } hpre hf
  have hmig : migrate upOk fs db
      = ⟨(migrateLoop upOk (nextBatch db.records) (pre ++ f :: post)
            { db with tableExists := true }).1,
         some (nextBatch db.records),
         (migrateLoop upOk (nextBatch db.records) (pre ++ f :: post)
            { db with tableExists := true }).2.1,
         (migrateLoop upOk (nextBatch db.records) (pre ++ f :: post)
            { db with tableExists := true }).2.2⟩ := by
    simp only [migrate, hsplit, hisem, Bool.false_eq_true, if_false]
  rcases hloop with ⟨h1, h2, h3⟩
  -- the failing migration is pending, so its id is not among the stored ids
  have hfmem : f ∈ getPendingMigrations fs { db with tableExists := true } := by
    rw [hsplit]
    exact List.mem_append_right pre (List.mem_cons_self f post)
  have hfnotdb : f.id ∉ db.records.map MigrationRecord.id := by
    rw [getPendingMigrations_eq] at hfmem
    have := (List.mem_filter.mp hfmem).2
    rw [Bool.not_eq_eq_eq_not, Bool.not_true, decide_eq_false_iff_not] at this
    exact this
  -- ids of pre and of f :: post are disjoint
  have hmapsplit : (pre ++ f :: post).map MigrationFile.id
      = pre.map MigrationFile.id ++ f.id :: post.map MigrationFile.id := by
    simp
  have hdisj : List.Disjoint (pre.map MigrationFile.id)
      (f.id :: post.map MigrationFile.id) := by
    rw [hmapsplit] at hnodup
    exact List.disjoint_of_nodup_append hnodup
  have hfnotpre : f.id ∉ pre.map MigrationFile.id := by
    intro hmem
    exact hdisj hmem (List.mem_cons_self f.id (post.map MigrationFile.id))
  refine ⟨by rw [hmig]; exact h3, ?_, ?_, ?_, ?_⟩
  · rw [hmig]
    exact h2
  · rw [hmig]
    exact h1
  · rw [hmig]
    show f.id ∉ (migrateLoop upOk (nextBatch db.records) (pre ++ f :: post)
        { db with tableExists := true }).1.records.map MigrationRecord.id
    rw [h1]
    intro hmem
    rcases List.mem_append.mp hmem with h | h
    · exact hfnotdb h
    · exact hfnotpre h
  · rw [hmig]
    show getPendingMigrations fs (migrateLoop upOk (nextBatch db.records)
        (pre ++ f :: post) { db with tableExists := true }).1 = f :: post
    rw [getPendingMigrations_eq]
    have hpredeq : ∀ g : MigrationFile,
        (!decide (g.id ∈ (migrateLoop upOk (nextBatch db.records)
            (pre ++ f :: post) { db with tableExists := true }).1.records.map
              MigrationRecord.id))
          = ((!decide (g.id ∈ db.records.map MigrationRecord.id))
              && (!decide (g.id ∈ pre.map MigrationFile.id))) := by
      intro g
      rw [h1]
      simp [List.mem_append, Bool.not_or]
    calc (getMigrationFiles fs).filter (fun g =>
            !decide (g.id ∈ (migrateLoop upOk (nextBatch db.records)
              (pre ++ f :: post) { db with tableExists := true }).1.records.map
                MigrationRecord.id))
        = (getMigrationFiles fs).filter (fun g =>
            (!decide (g.id ∈ db.records.map MigrationRecord.id))
              && (!decide (g.id ∈ pre.map MigrationFile.id))) := by
          exact List.filter_congr fun g _ => hpredeq g
      _ = ((getMigrationFiles fs).filter (fun g =>
            !decide (g.id ∈ db.records.map MigrationRecord.id))).filter (fun g =>
              !decide (g.id ∈ pre.map MigrationFile.id)) := by
          rw [List.filter_filter]
          exact List.filter_congr fun g _ => Bool.and_comm _ _
      _ = (pre ++ f :: post).filter (fun g =>
            !decide (g.id ∈ pre.map MigrationFile.id)) := by
          have hx := getPendingMigrations_eq fs { db with tableExists := true }
          simp only at hx
          rw [← hx, hsplit]
      _ = f :: post := by
          rw [List.filter_append]
          have hl : pre.filter (fun g =>
              !decide (g.id ∈ pre.map MigrationFile.id)) = [] := by
            apply List.filter_eq_nil_iff.mpr
            intro g hg
            have hm : g.id ∈ pre.map MigrationFile.id := List.mem_map.mpr ⟨g, hg, rfl⟩
            simp [hm]
          have hr : (f :: post).filter (fun g =>
              !decide (g.id ∈ pre.map MigrationFile.id)) = f :: post := by
            apply List.filter_eq_self.mpr
            intro g hg
            have hgid : g.id ∈ f.id :: post.map MigrationFile.id := by
              rcases List.mem_cons.mp hg with h | h
              · subst h; exact List.mem_cons_self _ _
              · exact List.mem_cons_of_mem _ (List.mem_map.mpr ⟨g, h, rfl⟩)
            have : g.id ∉ pre.map MigrationFile.id := fun hmem => hdisj hmem hgid
            simp [this]
          rw [hl, hr, List.nil_append]

theorem migrate_failure_aborts_witness :
    (migrate (fun id => !decide (id = lit "20250101000002"))
        [lit "20250101000001_a.ts", lit "20250101000002_b.ts", lit "20250101000003_c.ts"]
        ⟨false, [], 0⟩).failed = some (lit "20250101000002") ∧
    (migrate (fun id => !decide (id = lit "20250101000002"))
        [lit "20250101000001_a.ts", lit "20250101000002_b.ts", lit "20250101000003_c.ts"]
        ⟨false, [], 0⟩).db.records.map MigrationRecord.id = [lit "20250101000001"] ∧
    getPendingMigrations
        [lit "20250101000001_a.ts", lit "20250101000002_b.ts", lit "20250101000003_c.ts"]
        (migrate (fun id => !decide (id = lit "20250101000002"))
          [lit "20250101000001_a.ts", lit "20250101000002_b.ts", lit "20250101000003_c.ts"]
          ⟨false, [], 0⟩).db
      = [⟨lit "20250101000002", lit "b", 20250101000002, lit "20250101000002_b.ts"⟩,
         ⟨lit "20250101000003", lit "c", 20250101000003, lit "20250101000003_c.ts"⟩] := by
  have h := migrate_failure_aborts (fun id => !decide (id = lit "20250101000002"))
      [lit "20250101000001_a.ts", lit "20250101000002_b.ts", lit "20250101000003_c.ts"]
      ⟨false, [], 0⟩
      [⟨lit "20250101000001", lit "a", 20250101000001, lit "20250101000001_a.ts"⟩]
      [⟨lit "20250101000003", lit "c", 20250101000003, lit "20250101000003_c.ts"⟩]
      ⟨lit "20250101000002", lit "b", 20250101000002, lit "20250101000002_b.ts"⟩
      (by decide) (by decide) (by decide) (by decide)
  exact ⟨h.1, h.2.2.1.trans (by decide), h.2.2.2.2⟩

/-! ### Rollback: shared loop lemma -/

theorem eq_of_nodup_map_id (l : List MigrationRecord)
    (hn : (l.map MigrationRecord.id).Nodup) :
    ∀ a ∈ l, ∀ b ∈ l, a.id = b.id → a = b := by
  induction l with
  | nil => intro a ha; cases ha
  | cons c t ih =>
    simp only [List.map_cons, List.nodup_cons] at hn
    intro a ha b hb hab
    rcases List.mem_cons.mp ha with h1 | h1 <;> rcases List.mem_cons.mp hb with h2 | h2
    · rw [h1, h2]
    · subst h1
      exact absurd (List.mem_map.mpr ⟨b, h2, hab.symm⟩) hn.1
    · subst h2
      exact absurd (List.mem_map.mpr ⟨a, h1, hab⟩) hn.1
    · exact ih hn.2 a h1 b h2 hab

theorem rollbackLoop_spec (downOk : Str → Bool) (files : List MigrationFile)
    (hd : ∀ id, downOk id = true) :
    ∀ (targets : List MigrationRecord) (db : Db),
      (rollbackLoop downOk files targets db).db.records
        = db.records.filter (fun r =>
            !decide (r.id ∈ (targets.filter fun t =>
              decide (t.id ∈ files.map MigrationFile.id)).map MigrationRecord.id)) ∧
      (rollbackLoop downOk files targets db).reversed
        = (targets.filter fun t =>
            decide (t.id ∈ files.map MigrationFile.id)).map MigrationRecord.id ∧
      (rollbackLoop downOk files targets db).warnings
        = (targets.filter fun t =>
            !decide (t.id ∈ files.map MigrationFile.id)).map MigrationRecord.name ∧
      (rollbackLoop downOk files targets db).failed = none ∧
      (rollbackLoop downOk files targets db).db.tableExists = db.tableExists := by
  intro targets
  induction targets with
  | nil =>
    intro db
    simp [rollbackLoop]
  | cons t rest ih =>
    intro db
    by_cases hmem : t.id ∈ files.map MigrationFile.id
    · have hsome : (files.find? fun f => decide (f.id = t.id)).isSome := by
        rcases List.mem_map.mp hmem with ⟨f, hf, hfid⟩
        exact List.find?_isSome.mpr ⟨f, hf, decide_eq_true hfid⟩
      rcases Option.isSome_iff_exists.mp hsome with ⟨f, hfind⟩
      have hp := List.find?_some hfind
      have hfid : f.id = t.id := by simpa using hp
      have hdown : downOk f.id = true := hd f.id
      have hrest := ih { db with records := removeRecord db.records f.id }
      rcases hrest with ⟨h1, h2, h3, h4, h5⟩
      simp only [rollbackLoop, hfind, hdown, if_true]
      have hdec : decide (t.id ∈ files.map MigrationFile.id) = true := decide_eq_true hmem
      have hfilter : (t :: rest).filter (fun t =>
          decide (t.id ∈ files.map MigrationFile.id))
            = t :: rest.filter (fun t => decide (t.id ∈ files.map MigrationFile.id)) := by
        simp only [List.filter_cons, hdec, if_true]
      have hfilterneg : (t :: rest).filter (fun t =>
          !decide (t.id ∈ files.map MigrationFile.id))
            = rest.filter (fun t => !decide (t.id ∈ files.map MigrationFile.id)) := by
        simp only [List.filter_cons, hdec, Bool.not_true, Bool.false_eq_true, if_false]
      refine ⟨?_, ?_, ?_, ?_, ?_⟩
      · rw [h1, hfilter]
        show (db.records.filter fun r => decide (r.id ≠ f.id)).filter _ = _
        rw [List.filter_filter]
        apply List.filter_congr
        intro r _
        simp only [List.map_cons, List.mem_cons, hfid]
        rw [Bool.and_comm]
        cases hcase : decide (r.id = t.id) with
        | true =>
          have := of_decide_eq_true hcase
          simp [this]
        | false =>
          have := of_decide_eq_false hcase
          simp [this]
      · rw [h2, hfilter]
        simp [hfid]
      · rw [h3, hfilterneg]
      · exact h4
      · exact h5
    · have hnone : files.find? (fun f => decide (f.id = t.id)) = none := by
        rcases hcase : files.find? (fun f => decide (f.id = t.id)) with _ | f
        · exact hcase
        · exfalso
          have hmemf := List.mem_of_find?_eq_some hcase
          have hp := List.find?_some hcase
          simp only [decide_eq_true_eq] at hp
          exact hmem (List.mem_map.mpr ⟨f, hmemf, hp⟩)
      have hrest := ih db
      rcases hrest with ⟨h1, h2, h3, h4, h5⟩
      simp only [rollbackLoop, hnone]
      have hdec : decide (t.id ∈ files.map MigrationFile.id) = false := decide_eq_false hmem
      have hfilter : (t :: rest).filter (fun t =>
          decide (t.id ∈ files.map MigrationFile.id))
            = rest.filter (fun t => decide (t.id ∈ files.map MigrationFile.id)) := by
        simp only [List.filter_cons, hdec, Bool.false_eq_true, if_false]
      have hfilterneg : (t :: rest).filter (fun t =>
          !decide (t.id ∈ files.map MigrationFile.id))
            = t :: rest.filter (fun t => !decide (t.id ∈ files.map MigrationFile.id)) := by
        simp only [List.filter_cons, hdec, Bool.not_false, if_true]
      refine ⟨?_, ?_, ?_, ?_, ?_⟩
      · rw [h1, hfilter]
      · rw [h2, hfilter]
      · rw [h3, hfilterneg]
        simp
      · exact h4
      · exact h5

/-! ### Claim C5: rollback reverses exactly the last batch, newest first -/

/-- Claim C5: on a non-empty store whose rows are in application order
(sorted by batch then execution time, with unique ids) and whose last-batch
records all have catalog files, `rollback()` reverses exactly the records of
the maximal batch in reverse application order (newest first), removes
exactly their records, leaves every lower-batch record untouched, and
reports no error. -/
theorem rollback_reverses_last_batch (downOk : Str → Bool) (fs : List Str) (db : Db)
    (hne : db.records ≠ [])
    (hsort : List.Pairwise recLe db.records)
    (hnodup : (db.records.map MigrationRecord.id).Nodup)
    (hall : ∀ r ∈ db.records, r.batch = maxBatchList db.records →
        r.id ∈ (getMigrationFiles fs).map MigrationFile.id)
    (hd : ∀ id, downOk id = true) :
    (rollback downOk fs db).reversed
      = ((db.records.filter fun r =>
          decide (r.batch = maxBatchList db.records)).map MigrationRecord.id).reverse ∧
    (rollback downOk fs db).db.records
      = db.records.filter (fun r => !decide (r.batch = maxBatchList db.records)) ∧
    (rollback downOk fs db).failed = none := by
  have hinsort : getExecutedMigrations { db with tableExists := true } = db.records :=
    List.Sorted.insertionSort_eq hsort
  have hisem : db.records.isEmpty = false := List.isEmpty_eq_false.mpr hne
  have hru : rollback downOk fs db
      = rollbackLoop downOk (getMigrationFiles fs)
          ((db.records.filter fun r => decide (r.batch = maxBatchList db.records)).reverse)
          { db with tableExists := true } := by
    unfold rollback
    simp only [hinsort, hisem, Bool.false_eq_true, if_false]
  have hloop := rollbackLoop_spec downOk (getMigrationFiles fs) hd
      ((db.records.filter fun r => decide (r.batch = maxBatchList db.records)).reverse)
      { db with tableExists := true }
  rcases hloop with ⟨h1, h2, h3, h4, h5⟩
  have htar : ((db.records.filter fun r =>
      decide (r.batch = maxBatchList db.records)).reverse).filter
        (fun t => decide (t.id ∈ (getMigrationFiles fs).map MigrationFile.id))
      = (db.records.filter fun r => decide (r.batch = maxBatchList db.records)).reverse := by
    apply List.filter_eq_self.mpr
    intro t ht
    have ht2 := List.mem_reverse.mp ht
    have hmem := (List.mem_filter.mp ht2).1
    have hbatch := of_decide_eq_true (List.mem_filter.mp ht2).2
    exact decide_eq_true (hall t hmem hbatch)
  have hpt : ∀ r ∈ db.records,
      (!decide (r.id ∈ ((db.records.filter fun s =>
          decide (s.batch = maxBatchList db.records)).reverse).map MigrationRecord.id))
        = (!decide (r.batch = maxBatchList db.records)) := by
    intro r hr
    congr 1
    apply decide_eq_decide.mpr
    constructor
    · intro hmem
      rcases List.mem_map.mp hmem with ⟨t, ht, htid⟩
      have ht2 := List.mem_reverse.mp ht
      have htrec := (List.mem_filter.mp ht2).1
      have htb := of_decide_eq_true (List.mem_filter.mp ht2).2
      have hteq := eq_of_nodup_map_id db.records hnodup t htrec r hr htid
      rw [← hteq]
      exact htb
    · intro hb
      exact List.mem_map.mpr ⟨r, List.mem_reverse.mpr
        (List.mem_filter.mpr ⟨hr, decide_eq_true hb⟩), rfl⟩
  refine ⟨?_, ?_, ?_⟩
  · rw [hru, h2, htar, List.map_reverse]
  · rw [hru, h1, htar]
    exact List.filter_congr hpt
  · rw [hru, h4]

theorem rollback_reverses_last_batch_witness :
    (rollback (fun _ => true)
        [lit "20250101000001_a.ts", lit "20250101000002_b.ts",
         lit "20250101000003_c.ts", lit "20250101000004_d.ts"]
        ⟨true, [⟨lit "20250101000001", lit "a", 1, 0⟩, ⟨lit "20250101000002", lit "b", 1, 1⟩,
                ⟨lit "20250101000003", lit "c", 2, 2⟩, ⟨lit "20250101000004", lit "d", 2, 3⟩],
          4⟩).reversed
      = [lit "20250101000004", lit "20250101000003"] ∧
    (rollback (fun _ => true)
        [lit "20250101000001_a.ts", lit "20250101000002_b.ts",
         lit "20250101000003_c.ts", lit "20250101000004_d.ts"]
        ⟨true, [⟨lit "20250101000001", lit "a", 1, 0⟩, ⟨lit "20250101000002", lit "b", 1, 1⟩,
                ⟨lit "20250101000003", lit "c", 2, 2⟩, ⟨lit "20250101000004", lit "d", 2, 3⟩],
          4⟩).db.records
      = [⟨lit "20250101000001", lit "a", 1, 0⟩, ⟨lit "20250101000002", lit "b", 1, 1⟩] := by
  have h := rollback_reverses_last_batch (fun _ => true)
      [lit "20250101000001_a.ts", lit "20250101000002_b.ts",
       lit "20250101000003_c.ts", lit "20250101000004_d.ts"]
      ⟨true, [⟨lit "20250101000001", lit "a", 1, 0⟩, ⟨lit "20250101000002", lit "b", 1, 1⟩,
              ⟨lit "20250101000003", lit "c", 2, 2⟩, ⟨lit "20250101000004", lit "d", 2, 3⟩],
        4⟩
      (by decide) (by decide) (by decide) (by decide) (fun _ => rfl)
  exact ⟨h.1.trans (by decide), h.2.1.trans (by decide)⟩

/-! ### Claim C8: rollback warns about and skips orphaned records -/

/-- Claim C8: during `rollback()`, each record of the target batch with no
matching catalog descriptor produces a warning and is skipped without being
removed (it stays orphaned), while the remaining records of the batch with
descriptors are still reversed; the run does not abort. -/
theorem rollback_warns_and_skips_orphans (downOk : Str → Bool) (fs : List Str) (db : Db)
    (hne : db.records ≠ [])
    (hsort : List.Pairwise recLe db.records)
    (hnodup : (db.records.map MigrationRecord.id).Nodup)
    (hd : ∀ id, downOk id = true) :
    (rollback downOk fs db).failed = none ∧
    (rollback downOk fs db).warnings
      = (((db.records.filter fun r => decide (r.batch = maxBatchList db.records)).reverse).filter
          fun t => !decide (t.id ∈ (getMigrationFiles fs).map MigrationFile.id)).map
            MigrationRecord.name ∧
    (rollback downOk fs db).db.records
      = db.records.filter (fun r =>
          !(decide (r.batch = maxBatchList db.records)
             && decide (r.id ∈ (getMigrationFiles fs).map MigrationFile.id))) ∧
    (∀ r ∈ db.records, r.batch = maxBatchList db.records →
        r.id ∉ (getMigrationFiles fs).map MigrationFile.id →
        r ∈ (rollback downOk fs db).db.records) := by
  have hinsort : getExecutedMigrations { db with tableExists := true } = db.records :=
    List.Sorted.insertionSort_eq hsort
  have hisem : db.records.isEmpty = false := List.isEmpty_eq_false.mpr hne
  have hru : rollback downOk fs db
      = rollbackLoop downOk (getMigrationFiles fs)
          ((db.records.filter fun r => decide (r.batch = maxBatchList db.records)).reverse)
          { db with tableExists := true } := by
    unfold rollback
    simp only [hinsort, hisem, Bool.false_eq_true, if_false]
  have hloop := rollbackLoop_spec downOk (getMigrationFiles fs) hd
      ((db.records.filter fun r => decide (r.batch = maxBatchList db.records)).reverse)
      { db with tableExists := true }
  rcases hloop with ⟨h1, h2, h3, h4, h5⟩
  have hpt : ∀ r ∈ db.records,
      (!decide (r.id ∈ (((db.records.filter fun s =>
          decide (s.batch = maxBatchList db.records)).reverse).filter
            (fun t => decide (t.id ∈ (getMigrationFiles fs).map MigrationFile.id))).map
              MigrationRecord.id))
        = (!(decide (r.batch = maxBatchList db.records)
              && decide (r.id ∈ (getMigrationFiles fs).map MigrationFile.id))) := by
    intro r hr
    congr 1
    rw [← Bool.decide_and]
    apply decide_eq_decide.mpr
    constructor
    · intro hmem
      rcases List.mem_map.mp hmem with ⟨t, ht, htid⟩
      have ht1 := (List.mem_filter.mp ht).1
      have htfound := of_decide_eq_true (List.mem_filter.mp ht).2
      have ht2 := List.mem_reverse.mp ht1
      have htrec := (List.mem_filter.mp ht2).1
      have htb := of_decide_eq_true (List.mem_filter.mp ht2).2
      have hteq := eq_of_nodup_map_id db.records hnodup t htrec r hr htid
      rw [← hteq]
      exact ⟨htb, htfound⟩
    · intro hb
      refine List.mem_map.mpr ⟨r, List.mem_filter.mpr
        ⟨List.mem_reverse.mpr (List.mem_filter.mpr ⟨hr, decide_eq_true hb.1⟩),
         decide_eq_true hb.2⟩, rfl⟩
  have hrecords : (rollback downOk fs db).db.records
      = db.records.filter (fun r =>
          !(decide (r.batch = maxBatchList db.records)
             && decide (r.id ∈ (getMigrationFiles fs).map MigrationFile.id))) := by
    rw [hru, h1]
    exact List.filter_congr hpt
  refine ⟨by rw [hru, h4], by rw [hru, h3], hrecords, ?_⟩
  intro r hr hb hc
  rw [hrecords]
  apply List.mem_filter.mpr
  refine ⟨hr, ?_⟩
  rw [decide_eq_false hc]
  simp

theorem rollback_warns_and_skips_orphans_witness :
    (rollback (fun _ => true)
        [lit "20250101000001_a.ts", lit "20250101000002_b.ts"]
        ⟨true, [⟨lit "20250101000001", lit "a", 1, 0⟩, ⟨lit "20250101000002", lit "b", 2, 1⟩,
                ⟨lit "20250101000003", lit "c", 2, 2⟩], 3⟩).failed = none ∧
    (rollback (fun _ => true)
        [lit "20250101000001_a.ts", lit "20250101000002_b.ts"]
        ⟨true, [⟨lit "20250101000001", lit "a", 1, 0⟩, ⟨lit "20250101000002", lit "b", 2, 1⟩,
                ⟨lit "20250101000003", lit "c", 2, 2⟩], 3⟩).warnings = [lit "c"] ∧
    (rollback (fun _ => true)
        [lit "20250101000001_a.ts", lit "20250101000002_b.ts"]
        ⟨true, [⟨lit "20250101000001", lit "a", 1, 0⟩, ⟨lit "20250101000002", lit "b", 2, 1⟩,
                ⟨lit "20250101000003", lit "c", 2, 2⟩], 3⟩).db.records
      = [⟨lit "20250101000001", lit "a", 1, 0⟩, ⟨lit "20250101000003", lit "c", 2, 2⟩] := by
  have h := rollback_warns_and_skips_orphans (fun _ => true)
      [lit "20250101000001_a.ts", lit "20250101000002_b.ts"]
      ⟨true, [⟨lit "20250101000001", lit "a", 1, 0⟩, ⟨lit "20250101000002", lit "b", 2, 1⟩,
              ⟨lit "20250101000003", lit "c", 2, 2⟩], 3⟩
      (by decide) (by decide) (by decide) (fun _ => rfl)
  exact ⟨h.1, h.2.1.trans (by decide), h.2.2.1.trans (by decide)⟩

/-! ### Claim C6: the catalog listing is the parsed files sorted by id -/

theorem digitsToNat_foldl : ∀ (l : Str) (a : Nat),
    l.foldl (fun x c => x * 10 + (c.toNat - 48)) a
      = a * 10 ^ l.length + digitsToNat l
  | [], a => by simp [digitsToNat]
  | c :: t, a => by
    have h1 := digitsToNat_foldl t (a * 10 + (c.toNat - 48))
    have h2 := digitsToNat_foldl t ((0 : Nat) * 10 + (c.toNat - 48))
    simp only [digitsToNat, List.foldl_cons, List.length_cons] at h1 h2 ⊢
    rw [h1, h2]
    ring

theorem digitsToNat_cons (c : Char) (t : Str) :
    digitsToNat (c :: t) = (c.toNat - 48) * 10 ^ t.length + digitsToNat t := by
  simp only [digitsToNat, List.foldl_cons]
  rw [digitsToNat_foldl]
  simp [digitsToNat]

theorem all_cons_split (c : Char) (t : Str) (p : Char → Bool)
    (h : (c :: t).all p = true) : p c = true ∧ t.all p = true := by
  rw [List.all_cons] at h
  exact Bool.and_eq_true_iff.mp h

theorem digitsToNat_lt (l : Str) (h : l.all isDigitChar = true) :
    digitsToNat l < 10 ^ l.length := by
  induction l with
  | nil => simp [digitsToNat]
  | cons c t ih =>
    rcases all_cons_split c t isDigitChar h with ⟨hc, ht⟩
    have hcv : c.toNat - 48 ≤ 9 := by
      unfold isDigitChar at hc
      rcases Bool.and_eq_true_iff.mp hc with ⟨h1, h2⟩
      have := of_decide_eq_true h2
      omega
    have hih := ih ht
    rw [digitsToNat_cons]
    have hstep : (c.toNat - 48) * 10 ^ t.length + digitsToNat t
        < (c.toNat - 48 + 1) * 10 ^ t.length := by
      rw [Nat.succ_mul]
      omega
    have hend : (c.toNat - 48 + 1) * 10 ^ t.length ≤ 10 * 10 ^ t.length :=
      Nat.mul_le_mul_right _ (by omega)
    calc (c.toNat - 48) * 10 ^ t.length + digitsToNat t
        < (c.toNat - 48 + 1) * 10 ^ t.length := hstep
      _ ≤ 10 * 10 ^ t.length := hend
      _ = 10 ^ (c :: t).length := by
          rw [List.length_cons, pow_succ, Nat.mul_comm]

theorem lexLeB_iff_digitsToNat_le : ∀ (a b : Str), a.length = b.length →
    a.all isDigitChar = true → b.all isDigitChar = true →
    (lexLeB a b = true ↔ digitsToNat a ≤ digitsToNat b)
  | [], [], _, _, _ => by simp [lexLeB]
  | [], c :: t, h, _, _ => by simp at h
  | c :: t, [], h, _, _ => by simp at h
  | c :: t, d :: u, h, ha, hb => by
    have hlen : t.length = u.length := by simpa using h
    rcases all_cons_split c t isDigitChar ha with ⟨hc, ht⟩
    rcases all_cons_split d u isDigitChar hb with ⟨hd, hu⟩
    have hcrange : 48 ≤ c.toNat ∧ c.toNat ≤ 57 := by
      unfold isDigitChar at hc
      rcases Bool.and_eq_true_iff.mp hc with ⟨x1, x2⟩
      exact ⟨of_decide_eq_true x1, of_decide_eq_true x2⟩
    have hdrange : 48 ≤ d.toNat ∧ d.toNat ≤ 57 := by
      unfold isDigitChar at hd
      rcases Bool.and_eq_true_iff.mp hd with ⟨x1, x2⟩
      exact ⟨of_decide_eq_true x1, of_decide_eq_true x2⟩
    have hbt : digitsToNat t < 10 ^ t.length := digitsToNat_lt t ht
    have hbu : digitsToNat u < 10 ^ u.length := digitsToNat_lt u hu
    rw [digitsToNat_cons, digitsToNat_cons, hlen]
    by_cases h1 : c.toNat < d.toNat
    · have hlex : lexLeB (c :: t) (d :: u) = true := by
        simp only [lexLeB]
        rw [if_pos h1]
      rw [hlex]
      simp only [true_iff]
      have hstep : (c.toNat - 48) * 10 ^ u.length + digitsToNat t
          < (c.toNat - 48 + 1) * 10 ^ u.length := by
        rw [Nat.succ_mul]
        rw [hlen] at hbt
        omega
      have hmono : (c.toNat - 48 + 1) * 10 ^ u.length ≤ (d.toNat - 48) * 10 ^ u.length :=
        Nat.mul_le_mul_right _ (by omega)
      omega
    · by_cases h2 : c.toNat = d.toNat
      · have hlex : lexLeB (c :: t) (d :: u) = lexLeB t u := by
          simp only [lexLeB]
          rw [if_neg h1, if_pos h2]
        have hih := lexLeB_iff_digitsToNat_le t u hlen ht hu
        rw [hlex, h2]
        constructor
        · intro hx
          have := hih.mp hx
          omega
        · intro hx
          apply hih.mpr
          omega
      · have hlex : lexLeB (c :: t) (d :: u) = false := by
          simp only [lexLeB]
          rw [if_neg h1, if_neg h2]
        rw [hlex]
        have hgt : d.toNat < c.toNat := by omega
        have hstep : (d.toNat - 48) * 10 ^ u.length + digitsToNat u
            < (d.toNat - 48 + 1) * 10 ^ u.length := by
          rw [Nat.succ_mul]
          omega
        have hmono : (d.toNat - 48 + 1) * 10 ^ u.length ≤ (c.toNat - 48) * 10 ^ u.length :=
          Nat.mul_le_mul_right _ (by omega)
        constructor
        · intro hfalse
          cases hfalse
        · intro hle
          omega

/-- Shape invariant of every parsed catalog entry: a fixed-width 14-digit id
whose numeric timestamp is its `parseInt` value. -/
def WellFormedFile (m : MigrationFile) : Prop :=
  m.id.length = 14 ∧ m.id.all isDigitChar = true ∧ m.timestamp = digitsToNat m.id

theorem parseFilename_eq_none (cs : Str) (hdrop : cs.drop 14 = []) :
    parseFilename cs = none := by
  unfold parseFilename
  rw [hdrop]

theorem parseFilename_eq (cs : Str) (u : Char) (r : Str) (hdrop : cs.drop 14 = u :: r) :
    parseFilename cs
      = if ((cs.take 14).length = 14 && (cs.take 14).all isDigitChar
            && (u = '_') && decide (4 ≤ r.length)
            && (r.drop (r.length - 3) = lit ".ts" || r.drop (r.length - 3) = lit ".js")
            && (r.take (r.length - 3)).all (fun c => !(c = newlineChar))) = true then
          some (cs.take 14, r.take (r.length - 3))
        else none := by
  unfold parseFilename
  rw [hdrop]

theorem parseToFile_wellFormed (fn : Str) (m : MigrationFile)
    (h : parseToFile fn = some m) : WellFormedFile m := by
  unfold parseToFile at h
  cases hp : parseFilename fn with
  | none => rw [hp] at h; cases h
  | some p =>
    rw [hp] at h
    simp only [Option.map_some'] at h
    have hm : m = ⟨p.1, p.2, digitsToNat p.1, fn⟩ := by
      cases h
      rfl
    subst hm
    cases hdrop : fn.drop 14 with
    | nil => rw [parseFilename_eq_none fn hdrop] at hp; cases hp
    | cons u r =>
      rw [parseFilename_eq fn u r hdrop] at hp
      split at hp
      case isTrue hcond =>
        injection hp with hinj
        rcases Bool.and_eq_true_iff.mp hcond with ⟨hc1, _⟩
        rcases Bool.and_eq_true_iff.mp hc1 with ⟨hc2, _⟩
        rcases Bool.and_eq_true_iff.mp hc2 with ⟨hc3, _⟩
        rcases Bool.and_eq_true_iff.mp hc3 with ⟨hc4, _⟩
        rcases Bool.and_eq_true_iff.mp hc4 with ⟨hlen, hdig⟩
        refine ⟨?_, ?_, rfl⟩
        · rw [← hinj]
          exact of_decide_eq_true hlen
        · rw [← hinj]
          exact hdig
      case isFalse hcond =>
        cases hp

/-- Claim C6: for every directory listing, `getMigrationFiles` returns
exactly the well-formed entries (a permutation of parsing each name, the
non-matching ones skipped), and the result is sorted ascending by `id`,
the fixed-width 14-digit timestamp string compared lexicographically.  The
listing is a function of the directory contents passed at the call: the
runner caches nothing between calls. -/
theorem getMigrationFiles_sorted_by_id (files : List Str) :
    (getMigrationFiles files).Perm (files.filterMap parseToFile) ∧
    List.Pairwise (fun a b : MigrationFile => lexLeB a.id b.id = true)
      (getMigrationFiles files) := by
  refine ⟨List.perm_insertionSort fileLe _, ?_⟩
  have hsorted : List.Sorted fileLe (getMigrationFiles files) :=
    List.sorted_insertionSort fileLe _
  have hwf : ∀ m ∈ getMigrationFiles files, WellFormedFile m := by
    intro m hm
    have hm2 : m ∈ files.filterMap parseToFile :=
      (List.mem_insertionSort fileLe).mp hm
    rcases List.mem_filterMap.mp hm2 with ⟨fn, _, hp⟩
    exact parseToFile_wellFormed fn m hp
  apply List.Pairwise.imp_of_mem ?_ hsorted
  intro a b ha hb hle
  have hwa := hwf a ha
  have hwb := hwf b hb
  apply (lexLeB_iff_digitsToNat_le a.id b.id (by rw [hwa.1, hwb.1]) hwa.2.1 hwb.2.1).mpr
  rw [← hwa.2.2, ← hwb.2.2]
  exact hle

/-! ### Template generator: slug formatting and timestamp rendering -/

/-- Membership in the character class `[a-z0-9]` (code points), the class
kept by `formatMigrationName`'s replacement regex. -/
def isSlugChar (c : Char) : Bool :=
  (decide (97 ≤ c.toNat) && decide (c.toNat ≤ 122))
    || (decide (48 ≤ c.toNat) && decide (c.toNat ≤ 57))

/-- An ASCII alphanumeric character (`a-z`, `A-Z` or `0-9`). -/
def isAsciiAlnum (c : Char) : Bool :=
  (decide (97 ≤ c.toNat) && decide (c.toNat ≤ 122))
    || (decide (65 ≤ c.toNat) && decide (c.toNat ≤ 90))
    || (decide (48 ≤ c.toNat) && decide (c.toNat ≤ 57))

/-- The global replacement `replace(/[^a-z0-9]+/g, '_')`: every maximal run
of characters outside `[a-z0-9]` becomes a single underscore.  The flag
records whether the previous character belonged to such a run. -/
def collapseAux : Bool → Str → Str
  | _, [] => []
  | prevBad, c :: r =>
    if isSlugChar c then c :: collapseAux false r
    else if prevBad then collapseAux true r
    else '_' :: collapseAux true r

/-- The edge replacement `replace(/^_+|_+$/g, '')`: strip every leading and
trailing underscore. -/
def stripEdges (l : Str) : Str :=
  ((l.dropWhile fun c => decide (c = '_')).reverse.dropWhile
    fun c => decide (c = '_')).reverse

/-- Per-character contribution of `String.prototype.toLowerCase()` (Unicode
default case conversion).  Exact on `A`-`Z` (code point + 32), on U+0130
(LATIN CAPITAL LETTER I WITH DOT ABOVE, the one multi-character lowercase
mapping: `i` U+0069 followed by U+0307) and on U+212A (KELVIN SIGN, which
lowercases to `k` U+006B).  Every other character is kept unchanged; by the
Unicode case-mapping data these two are the only code points whose lowercase
contains a character of `[a-z0-9]`ASCII beyond the `A`-`Z` range (no mapping
produces an ASCII digit), and the only context-sensitive lowercase rule
(final sigma) chooses between two characters both outside `[a-z0-9]` — so
through the following `[^a-z0-9]+ → _` collapse this rendering is
observationally identical to the real one on every input. -/
def jsLowerChar (c : Char) : Str :=
  if 65 ≤ c.toNat ∧ c.toNat ≤ 90 then [Char.ofNat (c.toNat + 32)]
  else if c.toNat = 304 then [Char.ofNat 105, Char.ofNat 775]
  else if c.toNat = 8490 then [Char.ofNat 107]
  else [c]

/-- `MigrationGenerator.formatMigrationName`: lower-case
(`toLowerCase()`, the concatenation of each character's lowercase), collapse
runs of characters outside `[a-z0-9]` to `_`, strip leading/trailing
underscores. -/
def formatMigrationName (name : Str) : Str :=
  stripEdges (collapseAux false (name.flatMap jsLowerChar))

/-- Decimal rendering of a natural number (`String(n)`), fuel-structured so
that it evaluates by kernel reduction. -/
def natToDigitsAux : Nat → Nat → Str
  | 0, _ => []
  | fuel + 1, n =>
    if n < 10 then [Char.ofNat (48 + n)]
    else natToDigitsAux fuel (n / 10) ++ [Char.ofNat (48 + n % 10)]

def natToDigits (n : Nat) : Str := natToDigitsAux (n + 1) n

/-- `String(n).padStart(2, '0')`. -/
def padTwo (n : Nat) : Str :=
  List.replicate (2 - (natToDigits n).length) '0' ++ natToDigits n

/-- The clock readings `generateTimestamp` renders: `getFullYear`,
`getMonth` (0-based), `getDate`, `getHours`, `getMinutes`, `getSeconds`. -/
structure DateParts where
  year : Nat
  month : Nat
  day : Nat
  hour : Nat
  minute : Nat
  second : Nat
deriving DecidableEq, Repr

/-- `MigrationGenerator.generateTimestamp`:
`year`, then `month+1`, `day`, `hours`, `minutes`, `seconds` each
zero-padded to two digits. -/
def generateTimestamp (d : DateParts) : Str :=
  natToDigits d.year ++ padTwo (d.month + 1) ++ padTwo d.day
    ++ padTwo d.hour ++ padTwo d.minute ++ padTwo d.second

/-- A clock reading in range: a four-digit year and two-digit fields (the
month field is `getMonth()+1`). -/
def ValidDate (d : DateParts) : Prop :=
  1000 ≤ d.year ∧ d.year < 10000 ∧ d.month + 1 < 100 ∧ d.day < 100
    ∧ d.hour < 100 ∧ d.minute < 100 ∧ d.second < 100

/-- The filename `MigrationGenerator.generate` writes:
`${timestamp}_${formattedName}.ts`. -/
def generatedFilename (d : DateParts) (name : Str) : Str :=
  generateTimestamp d ++ lit "_" ++ formatMigrationName name ++ lit ".ts"

/-! ### Claim C10: generator-to-catalog filename round trip -/

theorem toNat_ofNat_small (n : Nat) (h : n < 55296) : (Char.ofNat n).toNat = n := by
  have hv : n.isValidChar := Or.inl h
  rw [Char.ofNat, dif_pos hv]
  rfl

theorem jsLowerChar_has_slug (c : Char) (h : isAsciiAlnum c = true) :
    ∃ x ∈ jsLowerChar c, isSlugChar x = true := by
  have hr : (97 ≤ c.toNat ∧ c.toNat ≤ 122) ∨ (65 ≤ c.toNat ∧ c.toNat ≤ 90)
      ∨ (48 ≤ c.toNat ∧ c.toNat ≤ 57) := by
    simp only [isAsciiAlnum, Bool.or_eq_true, Bool.and_eq_true, decide_eq_true_eq] at h
    omega
  unfold jsLowerChar
  by_cases hup : 65 ≤ c.toNat ∧ c.toNat ≤ 90
  · rw [if_pos hup]
    refine ⟨Char.ofNat (c.toNat + 32), List.mem_singleton.mpr rfl, ?_⟩
    have ht : (Char.ofNat (c.toNat + 32)).toNat = c.toNat + 32 :=
      toNat_ofNat_small _ (by omega)
    simp only [isSlugChar, ht, Bool.or_eq_true, Bool.and_eq_true, decide_eq_true_eq]
    omega
  · rw [if_neg hup, if_neg (by omega), if_neg (by omega)]
    refine ⟨c, List.mem_singleton.mpr rfl, ?_⟩
    simp only [isSlugChar, Bool.or_eq_true, Bool.and_eq_true, decide_eq_true_eq]
    omega

theorem jsLowerChar_no_slug (c : Char) (hascii : c.toNat < 128)
    (h : isAsciiAlnum c = false) : ∀ x ∈ jsLowerChar c, isSlugChar x = false := by
  have hnot : ¬ ((97 ≤ c.toNat ∧ c.toNat ≤ 122) ∨ (65 ≤ c.toNat ∧ c.toNat ≤ 90)
      ∨ (48 ≤ c.toNat ∧ c.toNat ≤ 57)) := by
    intro hcon
    have htrue : isAsciiAlnum c = true := by
      simp only [isAsciiAlnum, Bool.or_eq_true, Bool.and_eq_true, decide_eq_true_eq]
      omega
    rw [htrue] at h
    cases h
  unfold jsLowerChar
  rw [if_neg (by omega), if_neg (by omega), if_neg (by omega)]
  intro x hx
  rw [List.mem_singleton.mp hx]
  apply Bool.eq_false_iff.mpr
  intro htrue
  simp only [isSlugChar, Bool.or_eq_true, Bool.and_eq_true, decide_eq_true_eq] at htrue
  omega

theorem collapseAux_chars : ∀ (b : Bool) (l : Str) (c : Char),
    c ∈ collapseAux b l → isSlugChar c = true ∨ c = '_'
  | _, [], c, h => by cases h
  | b, d :: r, c, h => by
    unfold collapseAux at h
    by_cases hd : isSlugChar d = true
    · rw [if_pos hd] at h
      rcases List.mem_cons.mp h with h1 | h1
      · exact Or.inl (h1 ▸ hd)
      · exact collapseAux_chars false r c h1
    · rw [if_neg hd] at h
      cases b with
      | true =>
        rw [if_pos rfl] at h
        exact collapseAux_chars true r c h
      | false =>
        rw [if_neg (by simp)] at h
        rcases List.mem_cons.mp h with h1 | h1
        · exact Or.inr h1
        · exact collapseAux_chars true r c h1

theorem collapseAux_all_underscore : ∀ (b : Bool) (l : Str),
    (∀ c ∈ l, isSlugChar c = false) → ∀ c ∈ collapseAux b l, c = '_'
  | _, [], _ => by intro c hc; cases hc
  | b, d :: r, h => by
    intro c hc
    have hd : isSlugChar d = false := h d (List.mem_cons_self d r)
    have hrest : ∀ c ∈ r, isSlugChar c = false :=
      fun x hx => h x (List.mem_cons_of_mem d hx)
    unfold collapseAux at hc
    rw [if_neg (by simp [hd])] at hc
    cases b with
    | true =>
      rw [if_pos rfl] at hc
      exact collapseAux_all_underscore true r hrest c hc
    | false =>
      rw [if_neg (by simp)] at hc
      rcases List.mem_cons.mp hc with h1 | h1
      · exact h1
      · exact collapseAux_all_underscore true r hrest c h1

theorem collapseAux_has_slug : ∀ (b : Bool) (l : Str) (c : Char),
    c ∈ l → isSlugChar c = true → c ∈ collapseAux b l
  | _, [], c, hc, _ => by cases hc
  | b, d :: r, c, hc, hslug => by
    unfold collapseAux
    rcases List.mem_cons.mp hc with h1 | h1
    · subst h1
      rw [if_pos hslug]
      exact List.mem_cons_self c _
    · by_cases hd : isSlugChar d = true
      · rw [if_pos hd]
        exact List.mem_cons_of_mem d (collapseAux_has_slug false r c h1 hslug)
      · rw [if_neg hd]
        cases b with
        | true =>
          rw [if_pos rfl]
          exact collapseAux_has_slug true r c h1 hslug
        | false =>
          rw [if_neg (by simp)]
          exact List.mem_cons_of_mem '_' (collapseAux_has_slug true r c h1 hslug)

theorem dropWhile_mem (p : Char → Bool) : ∀ (l : Str) (c : Char),
    c ∈ l → p c = false → c ∈ l.dropWhile p
  | [], c, hc, _ => by cases hc
  | d :: r, c, hc, hpc => by
    rw [List.dropWhile_cons]
    by_cases hd : p d = true
    · rw [if_pos hd]
      rcases List.mem_cons.mp hc with h1 | h1
      · rw [h1] at hpc
        rw [hpc] at hd
        cases hd
      · exact dropWhile_mem p r c h1 hpc
    · rw [if_neg hd]
      exact hc

theorem mem_stripEdges (l : Str) (c : Char) (hc : c ∈ l) (hne : ¬ c = '_') :
    c ∈ stripEdges l := by
  unfold stripEdges
  have hp : (fun c => decide (c = '_')) c = false := by simp [hne]
  have h1 : c ∈ l.dropWhile (fun c => decide (c = '_')) :=
    dropWhile_mem (fun c => decide (c = '_')) l c hc hp
  have h2 := List.mem_reverse.mpr h1
  have h3 := dropWhile_mem (fun c => decide (c = '_')) _ c h2 hp
  exact List.mem_reverse.mpr h3

theorem stripEdges_of_all_underscore (l : Str) (h : ∀ c ∈ l, c = '_') :
    stripEdges l = [] := by
  unfold stripEdges
  have h1 : l.dropWhile (fun c => decide (c = '_')) = [] :=
    List.dropWhile_eq_nil_iff.mpr fun x hx => decide_eq_true (h x hx)
  rw [h1]
  rfl

theorem formatMigrationName_chars (name : Str) (c : Char)
    (hc : c ∈ formatMigrationName name) : isSlugChar c = true ∨ c = '_' := by
  unfold formatMigrationName stripEdges at hc
  have h1 := List.mem_reverse.mp hc
  have h2 := (List.dropWhile_sublist _).subset h1
  have h3 := List.mem_reverse.mp h2
  have h4 := (List.dropWhile_sublist _).subset h3
  exact collapseAux_chars false _ c h4

theorem formatMigrationName_ne_nil (name : Str)
    (h : ∃ c ∈ name, isAsciiAlnum c = true) : formatMigrationName name ≠ [] := by
  rcases h with ⟨c, hc, halnum⟩
  rcases jsLowerChar_has_slug c halnum with ⟨x, hx, hslug⟩
  have hm : x ∈ name.flatMap jsLowerChar := List.mem_flatMap.mpr ⟨c, hc, hx⟩
  have h1 : x ∈ collapseAux false (name.flatMap jsLowerChar) :=
    collapseAux_has_slug false _ _ hm hslug
  have hneu : ¬ x = '_' := by
    intro he
    rw [he] at hslug
    exact absurd hslug (by decide)
  have h2 : x ∈ formatMigrationName name := mem_stripEdges _ _ h1 hneu
  intro hnil
  rw [hnil] at h2
  cases h2

theorem formatMigrationName_nil (name : Str)
    (hascii : ∀ c ∈ name, c.toNat < 128)
    (h : ∀ c ∈ name, isAsciiAlnum c = false) : formatMigrationName name = [] := by
  apply stripEdges_of_all_underscore
  apply collapseAux_all_underscore
  intro c hcm
  rcases List.mem_flatMap.mp hcm with ⟨c0, hc0, hcx⟩
  exact jsLowerChar_no_slug c0 (hascii c0 hc0) (h c0 hc0) c hcx

theorem natToDigitsAux_all_digits : ∀ (fuel n : Nat), n < fuel →
    (natToDigitsAux fuel n).all isDigitChar = true
  | 0, n, h => by omega
  | fuel + 1, n, h => by
    unfold natToDigitsAux
    by_cases h10 : n < 10
    · rw [if_pos h10]
      have ht : (Char.ofNat (48 + n)).toNat = 48 + n := toNat_ofNat_small _ (by omega)
      simp [isDigitChar, ht]
      omega
    · rw [if_neg h10]
      have hrec := natToDigitsAux_all_digits fuel (n / 10) (by omega)
      have ht : (Char.ofNat (48 + n % 10)).toNat = 48 + n % 10 :=
        toNat_ofNat_small _ (by omega)
      rw [List.all_append]
      simp [hrec, isDigitChar, ht]
      omega

theorem natToDigitsAux_length : ∀ (k fuel n : Nat), n < fuel →
    10 ^ k ≤ n → n < 10 ^ (k + 1) →
    (natToDigitsAux fuel n).length = k + 1
  | 0, fuel, n, hf, _, hhi => by
    cases fuel with
    | zero => omega
    | succ f =>
      have h10 : n < 10 := by
        have he : (10:Nat) ^ 1 = 10 := by norm_num
        rw [he] at hhi
        exact hhi
      unfold natToDigitsAux
      rw [if_pos h10]
      rfl
  | k + 1, fuel, n, hf, hlo, hhi => by
    cases fuel with
    | zero => omega
    | succ f =>
      have hp1 : (10:Nat) ^ (k + 1) = 10 ^ k * 10 := pow_succ 10 k
      have hp2 : (10:Nat) ^ (k + 1 + 1) = 10 ^ (k + 1) * 10 := pow_succ 10 (k + 1)
      have hpos : 1 ≤ (10:Nat) ^ k := Nat.one_le_pow k 10 (by omega)
      have h10 : ¬ n < 10 := by omega
      unfold natToDigitsAux
      rw [if_neg h10]
      rw [List.length_append]
      have hdiv_lt : n / 10 < f := by omega
      have hlo2 : 10 ^ k ≤ n / 10 := by omega
      have hhi2 : n / 10 < 10 ^ (k + 1) := by omega
      rw [natToDigitsAux_length k f (n / 10) hdiv_lt hlo2 hhi2]
      rfl

theorem natToDigits_all_digits (n : Nat) : (natToDigits n).all isDigitChar = true :=
  natToDigitsAux_all_digits (n + 1) n (by omega)

theorem natToDigits_length_one (n : Nat) (h : n < 10) : (natToDigits n).length = 1 := by
  unfold natToDigits natToDigitsAux
  rw [if_pos h]
  rfl

theorem natToDigits_length_two (n : Nat) (h1 : 10 ≤ n) (h2 : n < 100) :
    (natToDigits n).length = 2 := by
  have e1 : (10:Nat) ^ 1 = 10 := by norm_num
  have e2 : (10:Nat) ^ 2 = 100 := by norm_num
  exact natToDigitsAux_length 1 (n + 1) n (by omega) (by omega) (by omega)

theorem padTwo_length (n : Nat) (h : n < 100) : (padTwo n).length = 2 := by
  unfold padTwo
  rw [List.length_append, List.length_replicate]
  by_cases h10 : n < 10
  · rw [natToDigits_length_one n h10]
  · rw [natToDigits_length_two n (by omega) h]

theorem padTwo_all_digits (n : Nat) : (padTwo n).all isDigitChar = true := by
  unfold padTwo
  rw [List.all_append]
  have h1 : (List.replicate (2 - (natToDigits n).length) '0').all isDigitChar = true := by
    apply List.all_eq_true.mpr
    intro x hx
    rw [List.eq_of_mem_replicate hx]
    decide
  simp [h1, natToDigits_all_digits n]

theorem generateTimestamp_length (d : DateParts) (hv : ValidDate d) :
    (generateTimestamp d).length = 14 := by
  rcases hv with ⟨h1, h2, h3, h4, h5, h6, h7⟩
  have e1 : (10:Nat) ^ 3 = 1000 := by norm_num
  have e2 : (10:Nat) ^ 4 = 10000 := by norm_num
  have hy : (natToDigits d.year).length = 4 :=
    natToDigitsAux_length 3 (d.year + 1) d.year (by omega) (by omega) (by omega)
  unfold generateTimestamp
  simp only [List.length_append, hy, padTwo_length _ h3, padTwo_length _ h4,
    padTwo_length _ h5, padTwo_length _ h6, padTwo_length _ h7]

theorem generateTimestamp_all_digits (d : DateParts) :
    (generateTimestamp d).all isDigitChar = true := by
  unfold generateTimestamp
  simp [List.all_append, natToDigits_all_digits, padTwo_all_digits]

theorem parse_generatedFilename_some (d : DateParts) (name : Str) (hv : ValidDate d)
    (hne : formatMigrationName name ≠ []) :
    parseFilename (generatedFilename d name)
      = some (generateTimestamp d, formatMigrationName name) := by
  have hlen : (generateTimestamp d).length = 14 := generateTimestamp_length d hv
  have hfn : generatedFilename d name
      = generateTimestamp d ++ ('_' :: (formatMigrationName name ++ lit ".ts")) := by
    unfold generatedFilename
    simp [lit, List.append_assoc]
  have htake : (generatedFilename d name).take 14 = generateTimestamp d := by
    rw [hfn]
    exact List.take_left' hlen
  have hdrop : (generatedFilename d name).drop 14
      = '_' :: (formatMigrationName name ++ lit ".ts") := by
    rw [hfn]
    exact List.drop_left' hlen
  rw [parseFilename_eq _ _ _ hdrop]
  have hr_len : (formatMigrationName name ++ lit ".ts").length
      = (formatMigrationName name).length + 3 := by
    rw [List.length_append]
    rfl
  have hslug1 : 1 ≤ (formatMigrationName name).length := by
    cases hcase : formatMigrationName name with
    | nil => exact absurd hcase hne
    | cons _ _ => simp [hcase]
  have hsub : (formatMigrationName name).length + 3 - 3
      = (formatMigrationName name).length := by omega
  have hdrop3 : (formatMigrationName name ++ lit ".ts").drop
      ((formatMigrationName name ++ lit ".ts").length - 3) = lit ".ts" := by
    rw [hr_len, hsub]
    exact List.drop_left _ _
  have htake3 : (formatMigrationName name ++ lit ".ts").take
      ((formatMigrationName name ++ lit ".ts").length - 3) = formatMigrationName name := by
    rw [hr_len, hsub]
    exact List.take_left _ _
  have hall : ((formatMigrationName name).all fun c => !(c = newlineChar)) = true := by
    apply List.all_eq_true.mpr
    intro c hc
    have hcne : ¬ c = newlineChar := by
      rcases formatMigrationName_chars name c hc with h | h
      · intro he
        rw [he] at h
        exact absurd h (by decide)
      · rw [h]
        decide
    simp [hcne]
  have hcond : ((((generatedFilename d name).take 14).length = 14
        && ((generatedFilename d name).take 14).all isDigitChar
        && ('_' = '_')
        && decide (4 ≤ (formatMigrationName name ++ lit ".ts").length)
        && ((formatMigrationName name ++ lit ".ts").drop
              ((formatMigrationName name ++ lit ".ts").length - 3) = lit ".ts"
            || (formatMigrationName name ++ lit ".ts").drop
              ((formatMigrationName name ++ lit ".ts").length - 3) = lit ".js")
        && ((formatMigrationName name ++ lit ".ts").take
              ((formatMigrationName name ++ lit ".ts").length - 3)).all
              (fun c => !(c = newlineChar)))) = true := by
    rw [htake, hdrop3, htake3, hr_len]
    simp [hlen, generateTimestamp_all_digits d, hall]
    omega
  rw [if_pos hcond, htake, htake3]

theorem parse_generatedFilename_none (d : DateParts) (name : Str) (hv : ValidDate d)
    (hnil : formatMigrationName name = []) :
    parseFilename (generatedFilename d name) = none := by
  have hlen : (generateTimestamp d).length = 14 := generateTimestamp_length d hv
  have hfn : generatedFilename d name = generateTimestamp d ++ ('_' :: lit ".ts") := by
    unfold generatedFilename
    rw [hnil]
    simp [lit, List.append_assoc]
  have hdrop : (generatedFilename d name).drop 14 = '_' :: lit ".ts" := by
    rw [hfn]
    exact List.drop_left' hlen
  rw [parseFilename_eq _ _ _ hdrop]
  have hfalse : ¬ ((((generatedFilename d name).take 14).length = 14
        && ((generatedFilename d name).take 14).all isDigitChar
        && ('_' = '_')
        && decide (4 ≤ (lit ".ts").length)
        && ((lit ".ts").drop ((lit ".ts").length - 3) = lit ".ts"
            || (lit ".ts").drop ((lit ".ts").length - 3) = lit ".js")
        && ((lit ".ts").take ((lit ".ts").length - 3)).all
            (fun c => !(c = newlineChar)))) = true := by
    intro hcond
    rcases Bool.and_eq_true_iff.mp hcond with ⟨hc1, _⟩
    rcases Bool.and_eq_true_iff.mp hc1 with ⟨hc2, _⟩
    rcases Bool.and_eq_true_iff.mp hc2 with ⟨_, hlen4⟩
    exact absurd (of_decide_eq_true hlen4) (by decide)
  rw [if_neg hfalse]

/-- Claim C10 fails on the code for non-ASCII names: `toLowerCase()` is
Unicode-wide, so the name consisting of the single KELVIN SIGN U+212A —
which contains no ASCII alphanumeric character — lowercases to `k`, giving
the non-empty slug `k`, and the generated file is parsed by a subsequent
`list()` into a descriptor instead of being skipped. -/
theorem unicode_lower_round_trip_counterexample :
    (∀ c ∈ [Char.ofNat 8490], isAsciiAlnum c = false) ∧
    formatMigrationName [Char.ofNat 8490] = lit "k" ∧
    generatedFilename ⟨2025, 0, 1, 0, 0, 0⟩ [Char.ofNat 8490]
      = lit "20250101000000_k.ts" ∧
    getMigrationFiles [generatedFilename ⟨2025, 0, 1, 0, 0, 0⟩ [Char.ofNat 8490]]
      = [⟨lit "20250101000000", lit "k", 20250101000000,
          lit "20250101000000_k.ts"⟩] := by
  decide

/-- Claim C10 (amended): for a clock reading in range, a requested name with
at least one ASCII alphanumeric character yields a generated filename
(`timestamp_slug.ts`) that a subsequent `list()` parses into exactly the
descriptor with that timestamp id and slug; a name of ASCII characters with
no alphanumeric character yields an empty slug whose filename the catalog
skips.  (The ASCII restriction on the second branch is forced: a non-ASCII
name such as U+212A lowercases into `[a-z0-9]` and is not skipped.) -/
theorem generated_filename_round_trip (d : DateParts) (name : Str) (hv : ValidDate d) :
    ((∃ c ∈ name, isAsciiAlnum c = true) →
      getMigrationFiles [generatedFilename d name]
        = [⟨generateTimestamp d, formatMigrationName name,
            digitsToNat (generateTimestamp d), generatedFilename d name⟩]) ∧
    ((∀ c ∈ name, c.toNat < 128) → (∀ c ∈ name, isAsciiAlnum c = false) →
      getMigrationFiles [generatedFilename d name] = []) := by
  constructor
  · intro hex
    have hne := formatMigrationName_ne_nil name hex
    have hp := parse_generatedFilename_some d name hv hne
    unfold getMigrationFiles
    have hfm : [generatedFilename d name].filterMap parseToFile
        = [⟨generateTimestamp d, formatMigrationName name,
            digitsToNat (generateTimestamp d), generatedFilename d name⟩] := by
      simp [List.filterMap_cons, parseToFile, hp]
    rw [hfm]
    simp [List.insertionSort, List.orderedInsert]
  · intro hasciiname hallnon
    have hnil := formatMigrationName_nil name hasciiname hallnon
    have hp := parse_generatedFilename_none d name hv hnil
    unfold getMigrationFiles
    have hfm : [generatedFilename d name].filterMap parseToFile = [] := by
      simp [List.filterMap_cons, parseToFile, hp]
    rw [hfm]
    simp [List.insertionSort]

theorem generated_filename_round_trip_witness :
    getMigrationFiles [generatedFilename ⟨2025, 0, 5, 3, 7, 9⟩ (lit "Add Email!")]
      = [⟨lit "20250105030709", lit "add_email", 20250105030709,
          lit "20250105030709_add_email.ts"⟩] := by
  have h := (generated_filename_round_trip ⟨2025, 0, 5, 3, 7, 9⟩ (lit "Add Email!")
      (by unfold ValidDate; decide)).1 (by decide)
  exact h.trans (by decide)

/-! ### Claim C9: the emitted down is the structural inverse of the emitted up

The templates are transcribed from `MigrationGenerator` with `\x7b`/`\x7d`
for braces and `\x27` for single quotes inside string literals. -/

/-- A column `type` value: either a string (rendered `Sequelize.UPPER`) or
any other value, carried by its interpolated rendering. -/
inductive ColType where
  | str : Str → ColType
  | raw : Str → ColType
deriving DecidableEq, Repr

/-- A `defaultValue`: a string (rendered single-quoted) or any other value,
carried by its interpolated rendering. -/
inductive ColDefault where
  | str : Str → ColDefault
  | raw : Str → ColDefault
deriving DecidableEq, Repr

/-- The open JSON-shaped column definition, with the fields
`generateColumnCode` inspects; absent fields are `none`/`false`, and the
`validate` object is carried by its `JSON.stringify` rendering. -/
structure ColumnDefinition where
  type : Option ColType
  allowNull : Option Bool
  defaultValue : Option ColDefault
  primaryKey : Bool
  autoIncrement : Bool
  unique : Bool
  validate : Option Str
  comment : Option Str
deriving DecidableEq, Repr

/-- `MigrationGenerator.generateColumnCode`: build the `{ ... }` column
object line by line and join with `'\n  '`. -/
def generateColumnCode (d : ColumnDefinition) : Str :=
  let lines : List Str :=
    [lit "\x7b"]
    ++ (match d.type with
        | some (ColType.str s) => [lit "    type: Sequelize." ++ s.map Char.toUpper ++ lit ","]
        | some (ColType.raw v) => [lit "    type: " ++ v ++ lit ","]
        | none => [])
    ++ (match d.allowNull with
        | some b => [lit "    allowNull: " ++ (if b then lit "true" else lit "false") ++ lit ","]
        | none => [])
    ++ (match d.defaultValue with
        | some (ColDefault.str s) => [lit "    defaultValue: \x27" ++ s ++ lit "\x27,"]
        | some (ColDefault.raw v) => [lit "    defaultValue: " ++ v ++ lit ","]
        | none => [])
    ++ (if d.primaryKey then [lit "    primaryKey: true,"] else [])
    ++ (if d.autoIncrement then [lit "    autoIncrement: true,"] else [])
    ++ (if d.unique then [lit "    unique: true,"] else [])
    ++ (match d.validate with
        | some v => [lit "    validate: " ++ v ++ lit ","]
        | none => [])
    ++ (match d.comment with
        | some s => [lit "    comment: \x27" ++ s ++ lit "\x27,"]
        | none => [])
    ++ [lit "  \x7d"]
  List.intercalate (lit "\n  ") lines

/-- `MigrationGenerator.generateColumnsCode`: one `name: code,` line per
entry (insertion order), framed by the newlines of the template literal. -/
def generateColumnsCode (columns : List (Str × ColumnDefinition)) : Str :=
  lit "\n"
    ++ List.intercalate (lit "\n")
        (columns.map fun p => lit "    " ++ p.1 ++ lit ": " ++ generateColumnCode p.2 ++ lit ",")
    ++ lit "\n  "

/-- The default column block of `createTableTemplate` when no columns are
given. -/
def defaultColumnsCode : Str :=
  lit "\n      id: \x7b\n        type: Sequelize.UUID,\n        defaultValue: Sequelize.UUIDV4,\n        primaryKey: true,\n        allowNull: false,\n      \x7d,\n      created_at: \x7b\n        type: Sequelize.DATE,\n        allowNull: false,\n        defaultValue: Sequelize.NOW,\n      \x7d,\n      updated_at: \x7b\n        type: Sequelize.DATE,\n        allowNull: false,\n        defaultValue: Sequelize.NOW,\n      \x7d,\n      deleted_at: \x7b\n        type: Sequelize.DATE,\n        allowNull: true,\n      \x7d,"

/-- `MigrationGenerator.addColumnTemplate`: the emitted migration text whose
`up` adds the column and whose `down` removes it. -/
def addColumnTemplate (tableName columnName : Str) (d : ColumnDefinition) : Str :=
  lit "import type \x7b MigrationContext \x7d from \x27../core/MigrationRunner\x27;\n\nexport async function up(\x7b queryInterface, Sequelize \x7d: MigrationContext): Promise<void> \x7b\n  await queryInterface.addColumn(\x27"
    ++ tableName
    ++ lit "\x27, \x27"
    ++ columnName
    ++ lit "\x27, "
    ++ generateColumnCode d
    ++ lit ");\n\x7d\n\nexport async function down(\x7b queryInterface \x7d: MigrationContext): Promise<void> \x7b\n  await queryInterface.removeColumn(\x27"
    ++ tableName
    ++ lit "\x27, \x27"
    ++ columnName
    ++ lit "\x27);\n\x7d\n"

/-- `MigrationGenerator.createTableTemplate`: the emitted migration text
whose `up` creates the table and whose `down` drops it. -/
def createTableTemplate (tableName : Str)
    (columns : Option (List (Str × ColumnDefinition))) : Str :=
  let columnsCode := match columns with
    | some cols => generateColumnsCode cols
    | none => defaultColumnsCode
  lit "import type \x7b MigrationContext \x7d from \x27../core/MigrationRunner\x27;\n\nexport async function up(\x7b queryInterface, Sequelize \x7d: MigrationContext): Promise<void> \x7b\n  await queryInterface.createTable(\x27"
    ++ tableName
    ++ lit "\x27, \x7b"
    ++ columnsCode
    ++ lit "\n  \x7d);\n\x7d\n\nexport async function down(\x7b queryInterface \x7d: MigrationContext): Promise<void> \x7b\n  await queryInterface.dropTable(\x27"
    ++ tableName
    ++ lit "\x27);\n\x7d\n"

/-- The single-quote code point, delimiting interpolated names in the
emitted text. -/
def quoteChar : Char := Char.ofNat 39

/-- Drop an expected prefix, failing when it does not match. -/
def dropPref : Str → Str → Option Str
  | [], s => some s
  | _ :: _, [] => none
  | p :: ps, c :: cs => if p = c then dropPref ps cs else none

/-- Read up to (and consuming) the next single quote. -/
def readUntilQuote : Str → Option (Str × Str)
  | [] => none
  | c :: cs =>
    if c = quoteChar then some ([], cs)
    else
      match readUntilQuote cs with
      | some p => some (c :: p.1, p.2)
      | none => none

/-- Parse, out of an emitted add-column migration text, the table and column
that its `up` passes to `queryInterface.addColumn`. -/
def upAddColumnArgs (s : Str) : Option (Str × Str) :=
  (dropPref (lit "import type \x7b MigrationContext \x7d from \x27../core/MigrationRunner\x27;\n\nexport async function up(\x7b queryInterface, Sequelize \x7d: MigrationContext): Promise<void> \x7b\n  await queryInterface.addColumn(\x27") s).bind
    fun r1 => (readUntilQuote r1).bind
      fun p1 => (dropPref (lit ", \x27") p1.2).bind
        fun r3 => (readUntilQuote r3).map fun p2 => (p1.1, p2.1)

/-- Parse, out of an emitted add-column migration text, the table and column
that its `down` passes to `queryInterface.removeColumn` (matched from the
end of the text, where the `down` body sits). -/
def downRemoveColumnArgs (s : Str) : Option (Str × Str) :=
  (dropPref (lit "\x27);\n\x7d\n").reverse s.reverse).bind
    fun r1 => (readUntilQuote r1).bind
      fun p1 => (dropPref (lit " ,\x27") p1.2).bind
        fun r3 => (readUntilQuote r3).map fun p2 => (p2.1.reverse, p1.1.reverse)

/-- Parse, out of an emitted create-table migration text, the table that its
`up` passes to `queryInterface.createTable`. -/
def upCreateTableArg (s : Str) : Option Str :=
  (dropPref (lit "import type \x7b MigrationContext \x7d from \x27../core/MigrationRunner\x27;\n\nexport async function up(\x7b queryInterface, Sequelize \x7d: MigrationContext): Promise<void> \x7b\n  await queryInterface.createTable(\x27") s).bind
    fun r1 => (readUntilQuote r1).map fun p => p.1

/-- Parse, out of an emitted create-table migration text, the table that its
`down` passes to `queryInterface.dropTable` (matched from the end). -/
def downDropTableArg (s : Str) : Option Str :=
  (dropPref (lit "\x27);\n\x7d\n").reverse s.reverse).bind
    fun r1 => (readUntilQuote r1).map fun p => p.1.reverse

theorem dropPref_append (p r : Str) : dropPref p (p ++ r) = some r := by
  induction p with
  | nil => rfl
  | cons c t ih => simp [dropPref, ih]

theorem readUntilQuote_append (t r : Str) (h : quoteChar ∉ t) :
    readUntilQuote (t ++ quoteChar :: r) = some (t, r) := by
  induction t with
  | nil => simp [readUntilQuote]
  | cons c u ih =>
    have hcq : ¬ c = quoteChar := fun he => h (he ▸ List.mem_cons_self c u)
    have hu : quoteChar ∉ u := fun hm => h (List.mem_cons_of_mem c hm)
    rw [List.cons_append]
    unfold readUntilQuote
    rw [if_neg hcq, ih hu]

theorem upAddColumnArgs_spec (t c : Str) (d : ColumnDefinition)
    (ht : quoteChar ∉ t) (hc : quoteChar ∉ c) :
    upAddColumnArgs (addColumnTemplate t c d) = some (t, c) := by
  have h1 : lit "\x27, \x27" = quoteChar :: lit ", \x27" := rfl
  have h2 : lit "\x27, " = quoteChar :: lit ", " := rfl
  have h3 : lit "\x27);\n\x7d\n" = quoteChar :: lit ");\n\x7d\n" := rfl
  have e : addColumnTemplate t c d
      = lit "import type \x7b MigrationContext \x7d from \x27../core/MigrationRunner\x27;\n\nexport async function up(\x7b queryInterface, Sequelize \x7d: MigrationContext): Promise<void> \x7b\n  await queryInterface.addColumn(\x27"
        ++ (t ++ (quoteChar :: (lit ", \x27"
        ++ (c ++ (quoteChar :: (lit ", "
        ++ (generateColumnCode d
        ++ (lit ");\n\x7d\n\nexport async function down(\x7b queryInterface \x7d: MigrationContext): Promise<void> \x7b\n  await queryInterface.removeColumn(\x27"
        ++ (t ++ (quoteChar :: (lit ", \x27"
        ++ (c ++ (quoteChar :: lit ");\n\x7d\n"))))))))))))) := by
    unfold addColumnTemplate
    simp only [h1, h2, h3, List.append_assoc, List.cons_append]
  unfold upAddColumnArgs
  rw [e, dropPref_append]
  rw [Option.some_bind]
  rw [readUntilQuote_append t _ ht]
  rw [Option.some_bind]
  show (dropPref (lit ", \x27") (lit ", \x27" ++ _)).bind _ = _
  rw [dropPref_append]
  rw [Option.some_bind]
  rw [readUntilQuote_append c _ hc]
  rfl

theorem downRemoveColumnArgs_spec (t c : Str) (d : ColumnDefinition)
    (ht : quoteChar ∉ t) (hc : quoteChar ∉ c) :
    downRemoveColumnArgs (addColumnTemplate t c d) = some (t, c) := by
  have htr : quoteChar ∉ t.reverse := fun hm => ht (List.mem_reverse.mp hm)
  have hcr : quoteChar ∉ c.reverse := fun hm => hc (List.mem_reverse.mp hm)
  have hrev1 : (lit "\x27, \x27").reverse = quoteChar :: lit " ,\x27" := rfl
  have hrev2 : (lit ");\n\x7d\n\nexport async function down(\x7b queryInterface \x7d: MigrationContext): Promise<void> \x7b\n  await queryInterface.removeColumn(\x27").reverse
      = quoteChar :: (lit ");\n\x7d\n\nexport async function down(\x7b queryInterface \x7d: MigrationContext): Promise<void> \x7b\n  await queryInterface.removeColumn(").reverse := rfl
  have e : (addColumnTemplate t c d).reverse
      = (lit "\x27);\n\x7d\n").reverse
        ++ (c.reverse ++ (quoteChar :: (lit " ,\x27"
        ++ (t.reverse ++ (quoteChar
            :: ((lit ");\n\x7d\n\nexport async function down(\x7b queryInterface \x7d: MigrationContext): Promise<void> \x7b\n  await queryInterface.removeColumn(").reverse
                ++ ((generateColumnCode d).reverse
                ++ ((lit "\x27, ").reverse
                ++ (c.reverse
                ++ ((lit "\x27, \x27").reverse
                ++ (t.reverse
                ++ (lit "import type \x7b MigrationContext \x7d from \x27../core/MigrationRunner\x27;\n\nexport async function up(\x7b queryInterface, Sequelize \x7d: MigrationContext): Promise<void> \x7b\n  await queryInterface.addColumn(\x27").reverse))))))))))) := by
    unfold addColumnTemplate
    simp only [List.reverse_append, hrev1, hrev2, List.append_assoc, List.cons_append]
  unfold downRemoveColumnArgs
  rw [e, dropPref_append, Option.some_bind]
  rw [readUntilQuote_append c.reverse _ hcr, Option.some_bind]
  show (dropPref (lit " ,\x27") (lit " ,\x27" ++ _)).bind _ = _
  rw [dropPref_append, Option.some_bind]
  rw [readUntilQuote_append t.reverse _ htr]
  simp

theorem upCreateTableArg_spec (t : Str) (cols : Option (List (Str × ColumnDefinition)))
    (ht : quoteChar ∉ t) :
    upCreateTableArg (createTableTemplate t cols) = some t := by
  have h1 : lit "\x27, \x7b" = quoteChar :: lit ", \x7b" := rfl
  have key : ∀ code : Str,
      upCreateTableArg
        (lit "import type \x7b MigrationContext \x7d from \x27../core/MigrationRunner\x27;\n\nexport async function up(\x7b queryInterface, Sequelize \x7d: MigrationContext): Promise<void> \x7b\n  await queryInterface.createTable(\x27"
          ++ t ++ lit "\x27, \x7b" ++ code
          ++ lit "\n  \x7d);\n\x7d\n\nexport async function down(\x7b queryInterface \x7d: MigrationContext): Promise<void> \x7b\n  await queryInterface.dropTable(\x27"
          ++ t ++ lit "\x27);\n\x7d\n")
        = some t := by
    intro code
    have e : (lit "import type \x7b MigrationContext \x7d from \x27../core/MigrationRunner\x27;\n\nexport async function up(\x7b queryInterface, Sequelize \x7d: MigrationContext): Promise<void> \x7b\n  await queryInterface.createTable(\x27"
          ++ t ++ lit "\x27, \x7b" ++ code
          ++ lit "\n  \x7d);\n\x7d\n\nexport async function down(\x7b queryInterface \x7d: MigrationContext): Promise<void> \x7b\n  await queryInterface.dropTable(\x27"
          ++ t ++ lit "\x27);\n\x7d\n")
        = lit "import type \x7b MigrationContext \x7d from \x27../core/MigrationRunner\x27;\n\nexport async function up(\x7b queryInterface, Sequelize \x7d: MigrationContext): Promise<void> \x7b\n  await queryInterface.createTable(\x27"
          ++ (t ++ (quoteChar :: (lit ", \x7b"
          ++ (code ++ (lit "\n  \x7d);\n\x7d\n\nexport async function down(\x7b queryInterface \x7d: MigrationContext): Promise<void> \x7b\n  await queryInterface.dropTable(\x27"
          ++ (t ++ lit "\x27);\n\x7d\n")))))) := by
      simp only [h1, List.append_assoc, List.cons_append]
    unfold upCreateTableArg
    rw [e, dropPref_append, Option.some_bind]
    rw [readUntilQuote_append t _ ht]
    rfl
  cases cols with
  | none => exact key defaultColumnsCode
  | some cs => exact key (generateColumnsCode cs)

theorem downDropTableArg_spec (t : Str) (cols : Option (List (Str × ColumnDefinition)))
    (ht : quoteChar ∉ t) :
    downDropTableArg (createTableTemplate t cols) = some t := by
  have htr : quoteChar ∉ t.reverse := fun hm => ht (List.mem_reverse.mp hm)
  have hrev2 : (lit "\n  \x7d);\n\x7d\n\nexport async function down(\x7b queryInterface \x7d: MigrationContext): Promise<void> \x7b\n  await queryInterface.dropTable(\x27").reverse
      = quoteChar :: (lit "\n  \x7d);\n\x7d\n\nexport async function down(\x7b queryInterface \x7d: MigrationContext): Promise<void> \x7b\n  await queryInterface.dropTable(").reverse := rfl
  have key : ∀ code : Str,
      downDropTableArg
        (lit "import type \x7b MigrationContext \x7d from \x27../core/MigrationRunner\x27;\n\nexport async function up(\x7b queryInterface, Sequelize \x7d: MigrationContext): Promise<void> \x7b\n  await queryInterface.createTable(\x27"
          ++ t ++ lit "\x27, \x7b" ++ code
          ++ lit "\n  \x7d);\n\x7d\n\nexport async function down(\x7b queryInterface \x7d: MigrationContext): Promise<void> \x7b\n  await queryInterface.dropTable(\x27"
          ++ t ++ lit "\x27);\n\x7d\n")
        = some t := by
    intro code
    have e : ((lit "import type \x7b MigrationContext \x7d from \x27../core/MigrationRunner\x27;\n\nexport async function up(\x7b queryInterface, Sequelize \x7d: MigrationContext): Promise<void> \x7b\n  await queryInterface.createTable(\x27"
          ++ t ++ lit "\x27, \x7b" ++ code
          ++ lit "\n  \x7d);\n\x7d\n\nexport async function down(\x7b queryInterface \x7d: MigrationContext): Promise<void> \x7b\n  await queryInterface.dropTable(\x27"
          ++ t ++ lit "\x27);\n\x7d\n")).reverse
        = (lit "\x27);\n\x7d\n").reverse
          ++ (t.reverse ++ (quoteChar
            :: ((lit "\n  \x7d);\n\x7d\n\nexport async function down(\x7b queryInterface \x7d: MigrationContext): Promise<void> \x7b\n  await queryInterface.dropTable(").reverse
              ++ (code.reverse
              ++ ((lit "\x27, \x7b").reverse
              ++ (t.reverse
              ++ (lit "import type \x7b MigrationContext \x7d from \x27../core/MigrationRunner\x27;\n\nexport async function up(\x7b queryInterface, Sequelize \x7d: MigrationContext): Promise<void> \x7b\n  await queryInterface.createTable(\x27").reverse)))))) := by
      simp only [List.reverse_append, hrev2, List.append_assoc, List.cons_append]
    unfold downDropTableArg
    rw [e, dropPref_append, Option.some_bind]
    rw [readUntilQuote_append t.reverse _ htr]
    simp
  cases cols with
  | none => exact key defaultColumnsCode
  | some cs => exact key (generateColumnsCode cs)

/-- Claim C9: for every table name, column name (single-quote free, so that
the emitted code is well formed) and column definition, the `down` emitted by
`addColumnTemplate` removes exactly the column its `up` adds, from the same
table, and the `down` emitted by `createTableTemplate` drops exactly the
table its `up` creates. -/
theorem template_down_inverts_up (t c : Str) (d : ColumnDefinition)
    (cols : Option (List (Str × ColumnDefinition)))
    (ht : quoteChar ∉ t) (hc : quoteChar ∉ c) :
    (upAddColumnArgs (addColumnTemplate t c d) = some (t, c) ∧
     downRemoveColumnArgs (addColumnTemplate t c d) = some (t, c)) ∧
    (upCreateTableArg (createTableTemplate t cols) = some t ∧
     downDropTableArg (createTableTemplate t cols) = some t) :=
  ⟨⟨upAddColumnArgs_spec t c d ht hc, downRemoveColumnArgs_spec t c d ht hc⟩,
   ⟨upCreateTableArg_spec t cols ht, downDropTableArg_spec t cols ht⟩⟩

theorem template_down_inverts_up_witness :
    (upAddColumnArgs (addColumnTemplate (lit "users") (lit "age")
        ⟨some (ColType.str (lit "integer")), some false, none, false, false, false, none, none⟩)
      = some (lit "users", lit "age") ∧
     downRemoveColumnArgs (addColumnTemplate (lit "users") (lit "age")
        ⟨some (ColType.str (lit "integer")), some false, none, false, false, false, none, none⟩)
      = some (lit "users", lit "age")) ∧
    (upCreateTableArg (createTableTemplate (lit "users") none) = some (lit "users") ∧
     downDropTableArg (createTableTemplate (lit "users") none) = some (lit "users")) :=
  template_down_inverts_up (lit "users") (lit "age")
    ⟨some (ColType.str (lit "integer")), some false, none, false, false, false, none, none⟩
    none (by decide) (by decide)

end Migrations
